import Mathlib

/-!
# Verification of the oncology-registry field-inference and evaluation engine

Shallow embedding of `src/oncology_registry_copilot/field_mapping.py` and
`src/oncology_registry_copilot/evaluation.py`.  Strings are modelled as
`List Char`; Python regular expressions are hand-compiled into scanners
over character lists; `pandas` cell values are modelled as
`Option (List Char)` (`none` covers both a missing column and `NaN`);
fallible dictionary indexing is modelled with `Except`.
-/

namespace OncReg

/-- Python's whitespace class: the characters accepted by `str.isspace`
and matched by the regex class `\s` (CPython's `Py_UNICODE_ISSPACE` set). -/
def isPySpace (c : Char) : Bool :=
  c ∈ [' ', '\t', '\n', '\r', '\x0b', '\x0c',
       '\x1c', '\x1d', '\x1e', '\x1f', '\u0085', ' ',
       ' ', ' ', ' ', ' ', ' ', ' ',
       ' ', ' ', ' ', ' ', ' ', ' ',
       ' ', ' ', ' ', ' ', '　']

/-- The regex word class `\w` (ASCII model: the notes and patterns in this
code base are ASCII, so `[a-zA-Z0-9_]` is what `\b` boundaries see). -/
def isWordChar (c : Char) : Bool :=
  (('a' ≤ c && c ≤ 'z') || ('A' ≤ c && c ≤ 'Z') || ('0' ≤ c && c ≤ '9') || c = '_')

/-- ASCII model of Python `str.isalnum` (used by `evidence_span`'s
word-boundary extension loops). -/
def isAlnumChar (c : Char) : Bool :=
  (('a' ≤ c && c ≤ 'z') || ('A' ≤ c && c ≤ 'Z') || ('0' ≤ c && c ≤ '9'))

/-- ASCII model of Python `str.lower` on a single character (the core
library's `Char.toLower`, which maps exactly the basic latin capitals). -/
def lowerChar (c : Char) : Char := c.toLower

/-- `str.lower` over a whole string. -/
def lowerL (l : List Char) : List Char := l.map lowerChar

/-- Python's digit class `\d` (ASCII). -/
def isDigitChar (c : Char) : Bool := ('0' ≤ c && c ≤ '9')

/-- `text.startswith(pat)` on character lists. -/
def startsWithL : List Char → List Char → Bool
  | [], _ => true
  | _ :: _, [] => false
  | p :: ps, c :: cs => p = c && startsWithL ps cs

/-- Case-insensitive `startswith`: the pattern is given in lower case and the
text is lowered character by character (regex `IGNORECASE`). -/
def ciStartsWithL : List Char → List Char → Bool
  | [], _ => true
  | _ :: _, [] => false
  | p :: ps, c :: cs => p = lowerChar c && ciStartsWithL ps cs

/-- Python's `pat in s` substring test. -/
def containsSub (pat : List Char) (t : List Char) : Bool :=
  if startsWithL pat t then true
  else
    match t with
    | [] => false
    | _ :: rest => containsSub pat rest

/-- Python's `s.find(pat)`: index of the leftmost occurrence, `none` for `-1`. -/
def firstIdxSub (pat : List Char) (t : List Char) : Option Nat :=
  if startsWithL pat t then some 0
  else
    match t with
    | [] => none
    | _ :: rest => (firstIdxSub pat rest).map (· + 1)

/-- Python's `str.strip()`: drop whitespace from both ends. -/
def stripWS (l : List Char) : List Char :=
  ((l.dropWhile isPySpace).reverse.dropWhile isPySpace).reverse

/-- Python's `str.rstrip()`. -/
def rstripWS (l : List Char) : List Char :=
  (l.reverse.dropWhile isPySpace).reverse

/-- Fuelled worker for `collapseWS` (the fuel only makes the recursion
structural; `collapseWS_cons` recovers the natural unfolding). -/
def collapseFuel : Nat → List Char → List Char
  | 0, _ => []
  | _, [] => []
  | fuel + 1, c :: rest =>
      if isPySpace c then ' ' :: collapseFuel fuel (rest.dropWhile isPySpace)
      else c :: collapseFuel fuel rest

/-- The normalization named by the spec's evidence-traceability invariant:
collapse every maximal run of whitespace to a single space. -/
def collapseWS (l : List Char) : List Char := collapseFuel l.length l

/-- `s.replace("\r\n", "\n").replace("\r", "\n")`: both replacements fused
(every `\r\n` pair becomes `\n`, every remaining `\r` becomes `\n`). -/
def replCRLF : List Char → List Char
  | [] => []
  | c :: rest =>
      if c = '\r' then
        match rest with
        | [] => ['\n']
        | d :: rest' =>
            if d = '\n' then '\n' :: replCRLF rest'
            else '\n' :: replCRLF (d :: rest')
      else c :: replCRLF rest

/-- Fuelled worker for `subNL`. -/
def subNLFuel : Nat → List Char → List Char
  | 0, _ => []
  | _, [] => []
  | fuel + 1, c :: rest =>
      if c = '\n' then ' ' :: subNLFuel fuel (rest.dropWhile isPySpace)
      else c :: subNLFuel fuel rest

/-- `re.sub(r"\n\s*", " ", s)`: each newline together with the whitespace run
following it becomes a single space. -/
def subNL (l : List Char) : List Char := subNLFuel l.length l

/-- The regex class `[ \t]`. -/
def isSpTab (c : Char) : Bool := (c = ' ' || c = '\t')

/-- Fuelled worker for `subSpTab`. -/
def subSpTabFuel : Nat → List Char → List Char
  | 0, _ => []
  | _, [] => []
  | fuel + 1, c :: rest =>
      if isSpTab c then ' ' :: subSpTabFuel fuel (rest.dropWhile isSpTab)
      else c :: subSpTabFuel fuel rest

/-- `re.sub(r"[ \t]+", " ", s)`: each run of spaces/tabs becomes one space. -/
def subSpTab (l : List Char) : List Char := subSpTabFuel l.length l

section EvidenceSpan

/-- The leftward boundary-extension loop of `evidence_span`:
`while start > left_limit and start < len(note_text) and note_text[start].isalnum(): start -= 1`
(structural on `start`; the loop guard `left_limit < start` is false at 0). -/
def extendLeft (text : List Char) (leftLimit : Nat) : Nat → Nat
  | 0 => 0
  | s + 1 =>
      if decide (leftLimit < s + 1) && decide (s + 1 < text.length)
          && isAlnumChar (text.getD (s + 1) ' ') then
        extendLeft text leftLimit s
      else s + 1

/-- Fuelled worker for `extendRight`; the fuel is `right_limit - end`, which
the guard `end < right_limit` keeps positive. -/
def extendRightFuel (text : List Char) (rightLimit : Nat) : Nat → Nat → Nat
  | 0, e => e
  | fuel + 1, e =>
      if decide (e < rightLimit) && decide (0 < e) && decide (e ≤ text.length)
          && decide (e - 1 < text.length) && isAlnumChar (text.getD (e - 1) ' ') then
        extendRightFuel text rightLimit fuel (e + 1)
      else e

/-- The rightward boundary-extension loop of `evidence_span`:
`while end < right_limit and end > 0 and end <= len(note_text) and end - 1 < len(note_text)
and note_text[end - 1].isalnum(): end += 1`. -/
def extendRight (text : List Char) (rightLimit : Nat) (e : Nat) : Nat :=
  extendRightFuel text rightLimit (rightLimit - e) e

/-- `FieldPrediction` (field_mapping.py): a predicted value with the half-open
character span of its evidence.  Offsets are `Option Nat`: both present or both
absent is exactly what the claims are about, so nothing is baked in here. -/
structure FieldPrediction where
  value : Option (List Char)
  evidence_start : Option Nat
  evidence_end : Option Nat
deriving DecidableEq, Repr

/-- `FieldPrediction.evidence_span` up to (but excluding) the final
truncation guard: window arithmetic, word-boundary extension, raw slice,
line-ending normalization, whitespace collapsing, and `strip`. -/
def evidenceSpanCore (p : FieldPrediction) (noteText : List Char) : Option (List Char) :=
  match p.evidence_start, p.evidence_end with
  | some es, some ee =>
      let start0 := max 0 (es - 40)
      let end0 := min noteText.length (ee + 40)
      let leftLimit := max 0 (es - 80)
      let start := extendLeft noteText leftLimit start0
      let rightLimit := min noteText.length (ee + 80)
      let e := extendRight noteText rightLimit end0
      let snippetRaw := (noteText.drop start).take (e - start)
      some (stripWS (subSpTab (subNL (replCRLF snippetRaw))))
  | _, _ => none

/-- `FieldPrediction.evidence_span(note_text, max_len=160)`: the core snippet,
truncated with an appended ellipsis when longer than `max_len`. -/
def evidenceSpan (p : FieldPrediction) (noteText : List Char) (maxLen : Nat := 160) :
    Option (List Char) :=
  (evidenceSpanCore p noteText).map fun s =>
    if maxLen < s.length then rstripWS (s.take (maxLen - 3)) ++ "...".data else s

end EvidenceSpan

section Regex

/-- `\b` seen from the left: the character before the match position
(`none` at the start of the string) must not be a word character.  Every
pattern guarded this way starts with a word character. -/
def boundaryPrev : Option Char → Bool
  | none => true
  | some c => !isWordChar c

/-- `\b` seen from the right: the rest after the match (`[]` at the end of
the string) must not start with a word character.  Every pattern guarded
this way ends with a word character. -/
def boundaryR : List Char → Bool
  | [] => true
  | c :: _ => !isWordChar c

/-- The code sub-pattern `X{1,3}Y?\b` shared by the stage regexes
(`[IVX]{1,3}[AB]?\b`, `[ivx]{1,3}[ab]?\b`), with Python's backtracking
resolved: the quantifier is greedy, and shrinking it can never succeed
because the abandoned character is again a word character under `\b`. -/
def parseCode (main suf : Char → Bool) (rest : List Char) : Option (List Char) :=
  let run := rest.takeWhile main
  let k := min 3 run.length
  if k = 0 then none
  else
    let taken := rest.take k
    match rest.drop k with
    | [] => some taken
    | c :: rest' =>
        if main c then none
        else if suf c then
          match rest' with
          | [] => some (taken ++ [c])
          | d :: _ => if isWordChar d then none else some (taken ++ [c])
        else if isWordChar c then none
        else some taken

/-- The roman-numeral class of `simple_stage_pattern` (`[IVX]`, upper case:
the pattern in `infer_stage` is case-sensitive). -/
def isIvxUpper (c : Char) : Bool := (c = 'I' || c = 'V' || c = 'X')

/-- `[AB]` of `simple_stage_pattern`. -/
def isAbUpper (c : Char) : Bool := (c = 'A' || c = 'B')

/-- `[ivx]` of the lowercase stage regexes in `normalize_stage`. -/
def isIvxLower (c : Char) : Bool := (c = 'i' || c = 'v' || c = 'x')

/-- `[ab]` of the lowercase stage regexes in `normalize_stage`. -/
def isAbLower (c : Char) : Bool := (c = 'a' || c = 'b')

/-- `re.search(r"\bX{1,3}Y?\b", t)` for the code token patterns: leftmost
match, returning the match start and the matched token. -/
def searchCodeToken (main suf : Char → Bool) :
    Option Char → Nat → List Char → Option (Nat × List Char)
  | prev, i, t =>
    match t with
    | [] => none
    | c :: rest =>
        match (if boundaryPrev prev then parseCode main suf t else none) with
        | some g => some (i, g)
        | none => searchCodeToken main suf (some c) (i + 1) rest

/-- One position of the `\bstage\s+([ivx]{1,3}[ab]?)\b` search: the `\b`,
the literal `stage`, at least one whitespace character (`\s+`, greedy), then
the code group. -/
def stageKwAttempt (prev : Option Char) (t : List Char) : Option (List Char) :=
  if boundaryPrev prev && startsWithL "stage".data t then
    let after := t.drop 5
    if (after.takeWhile isPySpace).length = 0 then none
    else parseCode isIvxLower isAbLower (after.dropWhile isPySpace)
  else none

/-- `re.search(r"\bstage\s+([ivx]{1,3}[ab]?)\b", s)` from `normalize_stage`,
returning the captured group. -/
def stageKwSearch : Option Char → List Char → Option (List Char)
  | prev, t =>
    match t with
    | [] => none
    | c :: rest =>
        match stageKwAttempt prev (c :: rest) with
        | some g => some g
        | none => stageKwSearch (some c) rest

/-- `re.search(r"\bstg\b", s)` from `stage_signal_present`. -/
def hasStgToken : Option Char → List Char → Bool
  | prev, t =>
    match t with
    | [] => false
    | c :: rest =>
        if boundaryPrev prev && startsWithL "stg".data t && boundaryR (t.drop 3) then true
        else hasStgToken (some c) rest

/-- One or more digits (`\d+`, greedy): the run length and the rest. -/
def digitsThen (l : List Char) : Option (Nat × List Char) :=
  let d := l.takeWhile isDigitChar
  if d.length = 0 then none else some (d.length, l.drop d.length)

/-- The TNM pattern `p?[Tt]\d+[Nn]\d+M\d+\b` matched at one position,
returning the match length.  `p` and `M` are case-sensitive literals;
dropping an optional `p` can never rescue a failed match because `[Tt]`
then has to match the abandoned `p` itself. -/
def tnmParse (t : List Char) : Option Nat :=
  let (plen, t1) := match t with
    | 'p' :: rest => (1, rest)
    | _ => (0, t)
  match t1 with
  | c :: rest =>
      if c = 'T' || c = 't' then
        match digitsThen rest with
        | some (n1, r1) =>
            match r1 with
            | n :: r2 =>
                if n = 'N' || n = 'n' then
                  match digitsThen r2 with
                  | some (n2, r3) =>
                      match r3 with
                      | 'M' :: r4 =>
                          match digitsThen r4 with
                          | some (n3, r5) =>
                              if boundaryR r5 then some (plen + 1 + n1 + 1 + n2 + 1 + n3)
                              else none
                          | none => none
                      | _ => none
                  | none => none
                else none
            | [] => none
        | none => none
      else none
  | [] => none

/-- `re.search(r"\bp?[Tt]\d+[Nn]\d+M\d+\b", t)`: leftmost match as a
half-open offset pair. -/
def tnmSearch : Option Char → Nat → List Char → Option (Nat × Nat)
  | prev, i, t =>
    match t with
    | [] => none
    | c :: rest =>
        match (if boundaryPrev prev then tnmParse t else none) with
        | some len => some (i, i + len)
        | none => tnmSearch (some c) (i + 1) rest

/-- One alternative of the histology alternation: a case-insensitive term
followed by `\b`. -/
def tryTerm (term : List Char) (t : List Char) : Option Nat :=
  if ciStartsWithL term t && boundaryR (t.drop term.length) then some term.length
  else none

/-- `\w+\s+(carcinoma|adenocarcinoma|sarcoma|lymphoma)\b` matched at one
position (case-insensitive), returning the match length.  `\w+` and `\s+`
are greedy over disjoint classes, so maximal munch is exact; the four
alternatives start with distinct letters, so at most one literal matches. -/
def histMatchAt (t : List Char) : Option Nat :=
  let w := t.takeWhile isWordChar
  if w.length = 0 then none
  else
    let t1 := t.drop w.length
    let s := t1.takeWhile isPySpace
    if s.length = 0 then none
    else
      let t2 := t1.drop s.length
      let term :=
        match tryTerm "carcinoma".data t2 with
        | some n => some n
        | none =>
            match tryTerm "adenocarcinoma".data t2 with
            | some n => some n
            | none =>
                match tryTerm "sarcoma".data t2 with
                | some n => some n
                | none => tryTerm "lymphoma".data t2
      term.map fun n => w.length + s.length + n

/-- `re.search` for the histology pattern
`\b(\w+\s+(carcinoma|adenocarcinoma|sarcoma|lymphoma))\b` (IGNORECASE):
leftmost match as a half-open offset pair. -/
def histSearch : Option Char → Nat → List Char → Option (Nat × Nat)
  | prev, i, t =>
    match t with
    | [] => none
    | c :: rest =>
        match (if boundaryPrev prev then histMatchAt t else none) with
        | some len => some (i, i + len)
        | none => histSearch (some c) (i + 1) rest

/-- A scanner for the biomarker marker regexes: `matchAt` decides a match at
one position (given the previous character for `\b`), the scanner returns the
leftmost match as a half-open offset pair. -/
def scanWith (matchAt : Option Char → List Char → Option Nat) :
    Option Char → Nat → List Char → Option (Nat × Nat)
  | prev, i, t =>
    match t with
    | [] => none
    | c :: rest =>
        match matchAt prev t with
        | some len => some (i, i + len)
        | none => scanWith matchAt (some c) (i + 1) rest

/-- `estrogen receptor|\bER\b` (IGNORECASE) at one position: the first
alternative is a bare literal (no boundaries), the second a bounded token. -/
def erMatchAt (prev : Option Char) (t : List Char) : Option Nat :=
  if ciStartsWithL "estrogen receptor".data t then some 17
  else if boundaryPrev prev && ciStartsWithL "er".data t && boundaryR (t.drop 2) then some 2
  else none

/-- `progesterone receptor|\bPR\b` (IGNORECASE) at one position. -/
def prMatchAt (prev : Option Char) (t : List Char) : Option Nat :=
  if ciStartsWithL "progesterone receptor".data t then some 21
  else if boundaryPrev prev && ciStartsWithL "pr".data t && boundaryR (t.drop 2) then some 2
  else none

/-- `\bHER2\b` (IGNORECASE) at one position. -/
def her2MatchAt (prev : Option Char) (t : List Char) : Option Nat :=
  if boundaryPrev prev && ciStartsWithL "her2".data t && boundaryR (t.drop 4) then some 4
  else none

end Regex

section FieldMapping

/-- A recognized-entity dict as the extractors consume it.  Each key may be
absent (`none` models a missing dictionary key, the malformation the spec's
error-handling section is about).  `stop` models the `end` key; `confidence`
is a rational model of the Python float (only its ordering is used). -/
structure Entity where
  label : Option (List Char)
  text : Option (List Char)
  confidence : Option ℚ
  start : Option Nat
  stop : Option Nat
deriving DecidableEq, Repr

/-- `_pick_best`: the highest-confidence entity satisfying the predicate,
missing confidence defaulting to `0.0`; Python's `max` keeps the first of
equally-scored candidates. -/
def pickBest (entities : List Entity) (cond : Entity → Bool) : Option Entity :=
  match entities.filter cond with
  | [] => none
  | c :: cs =>
      some (cs.foldl (fun acc e =>
        if (acc.confidence.getD 0) < (e.confidence.getD 0) then e else acc) c)

/-- The ordered site keyword list of `infer_primary_site`. -/
def siteKeywords : List (List Char) :=
  ["left breast".data, "right breast".data, "breast".data,
   "right upper lobe".data, "lung".data,
   "sigmoid colon".data, "sigmoid".data, "colon".data]

/-- `has_site_keyword`: a `Cancer`/`Organ` entity whose (lowercased) text
contains one of the site keywords; `ent.get("label")` and
`ent.get("text", "")` are total. -/
def hasSiteKeyword (ent : Entity) : Bool :=
  match ent.label with
  | some l =>
      if l = "Cancer".data || l = "Organ".data then
        siteKeywords.any fun kw => containsSub kw (lowerL (ent.text.getD []))
      else false
  | none => false

/-- The fallback of `infer_primary_site`: the first keyword (in list order)
found anywhere in the lowercased note. -/
def findFirstKw : List (List Char) → List Char → Option (List Char × Nat)
  | [], _ => none
  | kw :: rest, t =>
      match firstIdxSub kw t with
      | some i => some (kw, i)
      | none => findFirstKw rest t

/-- The common entity branch of the three entity-consuming extractors:
`FieldPrediction(value=best["text"], evidence_start=best["start"],
evidence_end=best["end"])`, with Python's left-to-right `KeyError` on a
missing key (raw `dict` indexing, not `.get`). -/
def entityPrediction (best : Entity) : Except (List Char) FieldPrediction :=
  match best.text, best.start, best.stop with
  | some t, some s, some e => .ok ⟨some t, some s, some e⟩
  | none, _, _ => .error "KeyError: text".data
  | some _, none, _ => .error "KeyError: start".data
  | some _, some _, none => .error "KeyError: end".data

/-- `infer_primary_site`: best matching entity (its raw `text`/`start`/`end`
are indexed directly, so a matching entity missing offsets raises), else the
first site keyword in the note text, else the empty prediction. -/
def inferPrimarySite (noteText : List Char) (entities : List Entity) :
    Except (List Char) FieldPrediction :=
  match pickBest entities hasSiteKeyword with
  | some best => entityPrediction best
  | none =>
      match findFirstKw siteKeywords (lowerL noteText) with
      | some (kw, idx) => .ok ⟨some kw, some idx, some (idx + kw.length)⟩
      | none => .ok ⟨none, none, none⟩

/-- The histology term list of `infer_histology`. -/
def histologyTerms : List (List Char) :=
  ["carcinoma".data, "adenocarcinoma".data, "sarcoma".data, "lymphoma".data]

/-- `is_histology`: a `Cancer` entity whose text contains a histology term. -/
def isHistology (ent : Entity) : Bool :=
  match ent.label with
  | some l =>
      if l = "Cancer".data then
        histologyTerms.any fun term => containsSub term (lowerL (ent.text.getD []))
      else false
  | none => false

/-- `infer_histology`: best matching `Cancer` entity (raw indexing as in
`infer_primary_site`), else the `<word> <histology-term>` regex on the raw
note text, else the empty prediction. -/
def inferHistology (noteText : List Char) (entities : List Entity) :
    Except (List Char) FieldPrediction :=
  match pickBest entities isHistology with
  | some best => entityPrediction best
  | none =>
      match histSearch none 0 noteText with
      | some (s, e) => .ok ⟨some ((noteText.drop s).take (e - s)), some s, some e⟩
      | none => .ok ⟨none, none, none⟩

/-- `is_stage_entity`: a `Cancer` entity whose stripped lowercased text
starts with `"stage"`. -/
def isStageEntity (ent : Entity) : Bool :=
  match ent.label with
  | some l =>
      if l = "Cancer".data then
        startsWithL "stage".data (lowerL (stripWS (ent.text.getD [])))
      else false
  | none => false

/-- `infer_stage` as it stands in `field_mapping.py`: stage-prefixed `Cancer`
entity, else TNM pattern, else a bare `[IVX]{1,3}[AB]?` token anywhere in the
note, else the empty prediction. -/
def inferStage (noteText : List Char) (entities : List Entity) :
    Except (List Char) FieldPrediction :=
  match pickBest entities isStageEntity with
  | some best => entityPrediction best
  | none =>
      match tnmSearch none 0 noteText with
      | some (s, e) => .ok ⟨some ((noteText.drop s).take (e - s)), some s, some e⟩
      | none =>
          match searchCodeToken isIvxUpper isAbUpper none 0 noteText with
          | some (s, g) => .ok ⟨some g, some s, some (s + g.length)⟩
          | none => .ok ⟨none, none, none⟩

/-- `_find_marker_status`: locate the marker mention, then look for the first
`positive`/`negative` in the 120-character window after it; the marker span is
returned as evidence even when no polarity word is found. -/
def findMarkerStatus (noteText : List Char)
    (matchAt : Option Char → List Char → Option Nat) : FieldPrediction :=
  let lower := lowerL noteText
  match scanWith matchAt none 0 noteText with
  | none => ⟨none, none, none⟩
  | some (s, e) =>
      let windowAfter := (lower.drop e).take 120
      let posIdx := firstIdxSub "positive".data windowAfter
      let negIdx := firstIdxSub "negative".data windowAfter
      let status : Option (List Char) :=
        match posIdx, negIdx with
        | some p, some n => if p < n then some "positive".data else some "negative".data
        | some _, none => some "positive".data
        | none, some _ => some "negative".data
        | none, none => none
      ⟨status, some s, some e⟩

/-- `infer_er_status`. -/
def inferErStatus (noteText : List Char) : FieldPrediction :=
  findMarkerStatus noteText erMatchAt

/-- `infer_pr_status`. -/
def inferPrStatus (noteText : List Char) : FieldPrediction :=
  findMarkerStatus noteText prMatchAt

/-- `infer_her2_status`. -/
def inferHer2Status (noteText : List Char) : FieldPrediction :=
  findMarkerStatus noteText her2MatchAt

end FieldMapping

section Evaluation

/-- A cell value as the evaluator sees it: `none` models both a missing
column and a pandas `NaN`/`None` (all of which `pd.isna` sends to the same
early exit), `some s` a string value. -/
abbrev Cell := Option (List Char)

/-- One row of the pre-abstract `DataFrame`: a total lookup from column name
to cell (`r.get(col)`). -/
abbrev Record := String → Cell

/-- `_norm_str`: `None`/`NaN` to `None`, otherwise strip + lower, and the
empty result to `None`. -/
def normStr (v : Cell) : Option (List Char) :=
  match v with
  | none => none
  | some raw =>
      let s := lowerL (stripWS raw)
      if s = [] then none else some s

/-- `normalize_biomarker`: always a string — `"unknown"` for null/blank,
substring `pos`/`neg` dispatch, `unknown`/`unk` canonicalized, otherwise the
trimmed lowercased value. -/
def normalizeBiomarker (v : Cell) : List Char :=
  match normStr v with
  | none => "unknown".data
  | some s =>
      if containsSub "pos".data s then "positive".data
      else if containsSub "neg".data s then "negative".data
      else if s = "unknown".data || s = "unk".data then "unknown".data
      else s

/-- `s.replace(" ", "").lower()` from `normalize_stage` (the value is already
lowercased, so the second `lower` is the identity there; kept for fidelity). -/
def compactOf (s : List Char) : List Char := lowerL (s.filter fun c => !(c = ' '))

/-- `normalize_stage`: null stays null; then (a) `stage <code>` regex,
(b) the TNM collapse to `"ii"`, (c) a bare roman token, (d) passthrough. -/
def normalizeStage (v : Cell) : Option (List Char) :=
  match normStr v with
  | none => none
  | some s =>
      match stageKwSearch none s with
      | some g => some g
      | none =>
          let compact := compactOf s
          if containsSub "pt3n0m0".data compact || containsSub "t3n0m0".data compact then
            some "ii".data
          else
            match searchCodeToken isIvxLower isAbLower none 0 s with
            | some (_, g) => some g
            | none => some s

/-- `normalize_primary_site`. -/
def normalizePrimarySite (v : Cell) : Option (List Char) :=
  match normStr v with
  | none => none
  | some s =>
      if containsSub "breast".data s then some "breast".data
      else if containsSub "lung".data s || containsSub "lobe".data s then some "lung".data
      else if containsSub "colon".data s || containsSub "sigmoid".data s then some "colon".data
      else some s

/-- `normalize_histology`. -/
def normalizeHistology (v : Cell) : Option (List Char) :=
  match normStr v with
  | none => none
  | some s =>
      if containsSub "adenocarcinoma".data s then some "adenocarcinoma".data
      else if containsSub "ductal carcinoma".data s
           || containsSub "invasive ductal carcinoma".data s then
        some "invasive ductal carcinoma".data
      else some s

/-- `normalize_for_field`: dispatch on the field name. -/
def normalizeForField (field : String) (v : Cell) : Option (List Char) :=
  if field = "er_status" || field = "pr_status" || field = "her2_status" then
    some (normalizeBiomarker v)
  else if field = "stage" then normalizeStage v
  else if field = "primary_site" then normalizePrimarySite v
  else if field = "histology" then normalizeHistology v
  else normStr v

/-- `stage_signal_present`: `None`/`NaN` notes have no signal; otherwise the
lowercased text must contain `"stage"`, the token `stg`, or a match of the
TNM regex — whose literal `M` is case-sensitive and is applied to the
lowercased string. -/
def stageSignalPresent (noteText : Cell) : Bool :=
  match noteText with
  | none => false
  | some t =>
      let s := lowerL t
      if containsSub "stage".data s || hasStgToken none s then true
      else if (tnmSearch none 0 s).isSome then true
      else false

/-- The per-field tallies accumulated by `compute_metrics`' inner loop. -/
structure Counts where
  tp : Nat
  fp : Nat
  fn : Nat
  total : Nat
  correct : Nat
deriving DecidableEq, Repr

/-- One iteration of `compute_metrics`' loop over the records of one field:
skip non-scorable stage rows, normalize, skip null ground truth, then tally. -/
def stepCounts (field : String) (c : Counts) (r : Record) : Counts :=
  if field = "stage" && !stageSignalPresent (r "note_text") then c
  else
    let gt := normalizeForField field (r (field ++ "_gt"))
    let pred := normalizeForField field (r (field ++ "_pred"))
    match gt with
    | none => c
    | some _ =>
        if gt = pred then
          { c with tp := c.tp + 1, total := c.total + 1, correct := c.correct + 1 }
        else if pred = none then
          { c with fn := c.fn + 1, total := c.total + 1 }
        else
          { c with fp := c.fp + 1, total := c.total + 1 }

/-- The tallies for one field over the whole record set. -/
def fieldCounts (df : List Record) (field : String) : Counts :=
  df.foldl (stepCounts field) ⟨0, 0, 0, 0, 0⟩

/-- Python's `round` tie behaviour (round-half-to-even), on exact rationals. -/
def roundHalfEven (q : ℚ) : ℤ :=
  if q - (⌊q⌋ : ℚ) < 1 / 2 then ⌊q⌋
  else if 1 / 2 < q - (⌊q⌋ : ℚ) then ⌊q⌋ + 1
  else if ⌊q⌋ % 2 = 0 then ⌊q⌋ else ⌊q⌋ + 1

/-- `round(x, 3)`. -/
def round3 (q : ℚ) : ℚ := (roundHalfEven (q * 1000) : ℚ) / 1000

/-- One output row of `compute_metrics`. -/
structure FieldMetrics where
  field : String
  support : Nat
  correct : Nat
  accuracy : ℚ
  precision : ℚ
  recall_ : ℚ
  f1 : ℚ
deriving DecidableEq, Repr

/-- `accuracy = (correct / total) if total else 0.0`. -/
def guardedAcc (correct total : Nat) : ℚ :=
  if total = 0 then 0 else (correct : ℚ) / (total : ℚ)

/-- `tp / (tp + x) if (tp + x) else 0.0` — precision (`x = fp`) and recall
(`x = fn`). -/
def guardedRate (tp x : Nat) : ℚ :=
  if tp + x = 0 then 0 else (tp : ℚ) / ((tp : ℚ) + (x : ℚ))

/-- `(2 * p * r / (p + r)) if (p + r) else 0.0`. -/
def guardedF1 (p r : ℚ) : ℚ :=
  if p + r = 0 then 0 else 2 * p * r / (p + r)

/-- The metrics row `compute_metrics` emits for one field: the guarded
divisions, then `round(·, 3)` on each rate. -/
def metricsRow (df : List Record) (field : String) : FieldMetrics :=
  let c := fieldCounts df field
  { field := field, support := c.total, correct := c.correct,
    accuracy := round3 (guardedAcc c.correct c.total),
    precision := round3 (guardedRate c.tp c.fp),
    recall_ := round3 (guardedRate c.tp c.fn),
    f1 := round3 (guardedF1 (guardedRate c.tp c.fp) (guardedRate c.tp c.fn)) }

/-- `compute_metrics`: one row per requested field. -/
def computeMetrics (df : List Record) (fields : List String) : List FieldMetrics :=
  fields.map (metricsRow df)

/-- One row of `generate_error_report`. -/
structure ErrorRecord where
  case_id : Cell
  note_id : Cell
  note_type : Cell
  note_date : Cell
  field : String
  gt_value_raw : Cell
  pred_value_raw : Cell
  gt_value_norm : Option (List Char)
  pred_value_norm : Option (List Char)
  evidence : Cell
deriving DecidableEq, Repr

/-- The body of `generate_error_report`'s inner loop for one (record, field)
pair: `none` when the pair is skipped (stage gate, null ground truth) or the
normalized values agree, otherwise the emitted error row. -/
def errorCell (r : Record) (field : String) : Option ErrorRecord :=
  if field = "stage" && !stageSignalPresent (r "note_text") then none
  else
    let gtNorm := normalizeForField field (r (field ++ "_gt"))
    let predNorm := normalizeForField field (r (field ++ "_pred"))
    match gtNorm with
    | none => none
    | some _ =>
        if gtNorm = predNorm then none
        else
          some { case_id := r "case_id", note_id := r "note_id",
                 note_type := r "note_type", note_date := r "note_date",
                 field := field,
                 gt_value_raw := r (field ++ "_gt"),
                 pred_value_raw := r (field ++ "_pred"),
                 gt_value_norm := gtNorm, pred_value_norm := predNorm,
                 evidence := r (field ++ "_evidence") }

/-- `generate_error_report`: records outer, fields inner, keeping the
mismatching eligible pairs in order. -/
def generateErrorReport (df : List Record) (fields : List String) : List ErrorRecord :=
  df.flatMap fun r => fields.filterMap (errorCell r)

/-- The eligibility condition of the Metrics Engine and the Error Reporter as
the spec words it: the pair is skipped iff the field is `stage` without a
stage signal, or the normalized ground truth is null. -/
def eligiblePair (field : String) (r : Record) : Bool :=
  !(decide (field = "stage") && !stageSignalPresent (r "note_text")) &&
  (normalizeForField field (r (field ++ "_gt"))).isSome

end Evaluation

/-! ## Whitespace-normalization lemmas (evidence traceability) -/

theorem collapseFuel_nil (f : Nat) : collapseFuel f [] = [] := by cases f <;> rfl

theorem collapseFuel_congr (f₁ : Nat) :
    ∀ (f₂ : Nat) (l : List Char), l.length ≤ f₁ → l.length ≤ f₂ →
      collapseFuel f₁ l = collapseFuel f₂ l := by
  induction f₁ with
  | zero =>
      intro f₂ l h₁ _
      rw [List.length_eq_zero.mp (Nat.le_zero.mp h₁)]
      simp [collapseFuel_nil]
  | succ f ih =>
      intro f₂ l h₁ h₂
      cases l with
      | nil => simp [collapseFuel_nil]
      | cons c rest =>
          cases f₂ with
          | zero => simp at h₂
          | succ g =>
              simp only [List.length_cons, Nat.succ_le_succ_iff] at h₁ h₂
              simp only [collapseFuel]
              cases hw : isPySpace c
              · simpa using ih g rest h₁ h₂
              · simpa using ih g (rest.dropWhile isPySpace)
                  (Nat.le_trans (List.dropWhile_sublist _).length_le h₁)
                  (Nat.le_trans (List.dropWhile_sublist _).length_le h₂)

theorem collapseWS_cons (c : Char) (rest : List Char) :
    collapseWS (c :: rest) =
      if isPySpace c then ' ' :: collapseWS (rest.dropWhile isPySpace)
      else c :: collapseWS rest := by
  show collapseFuel (rest.length + 1) (c :: rest) = _
  simp only [collapseFuel]
  cases hw : isPySpace c
  · simp [collapseWS]
  · simp only [if_pos rfl, collapseWS]
    exact congrArg (' ' :: ·)
      (collapseFuel_congr rest.length _ _ (List.dropWhile_sublist _).length_le le_rfl)

theorem subNLFuel_nil (f : Nat) : subNLFuel f [] = [] := by cases f <;> rfl

theorem subNLFuel_congr (f₁ : Nat) :
    ∀ (f₂ : Nat) (l : List Char), l.length ≤ f₁ → l.length ≤ f₂ →
      subNLFuel f₁ l = subNLFuel f₂ l := by
  induction f₁ with
  | zero =>
      intro f₂ l h₁ _
      rw [List.length_eq_zero.mp (Nat.le_zero.mp h₁)]
      simp [subNLFuel_nil]
  | succ f ih =>
      intro f₂ l h₁ h₂
      cases l with
      | nil => simp [subNLFuel_nil]
      | cons c rest =>
          cases f₂ with
          | zero => simp at h₂
          | succ g =>
              simp only [List.length_cons, Nat.succ_le_succ_iff] at h₁ h₂
              simp only [subNLFuel]
              by_cases hw : c = '\n'
              · simp only [if_pos hw]
                simpa using ih g (rest.dropWhile isPySpace)
                  (Nat.le_trans (List.dropWhile_sublist _).length_le h₁)
                  (Nat.le_trans (List.dropWhile_sublist _).length_le h₂)
              · simp only [if_neg hw]
                simpa using ih g rest h₁ h₂

theorem subNL_cons (c : Char) (rest : List Char) :
    subNL (c :: rest) =
      if c = '\n' then ' ' :: subNL (rest.dropWhile isPySpace)
      else c :: subNL rest := by
  show subNLFuel (rest.length + 1) (c :: rest) = _
  simp only [subNLFuel]
  by_cases hw : c = '\n'
  · simp only [if_pos hw, hw, subNL]
    exact congrArg (' ' :: ·)
      (subNLFuel_congr rest.length _ _ (List.dropWhile_sublist _).length_le le_rfl)
  · simp [hw, subNL]

theorem subSpTabFuel_nil (f : Nat) : subSpTabFuel f [] = [] := by cases f <;> rfl

theorem subSpTabFuel_congr (f₁ : Nat) :
    ∀ (f₂ : Nat) (l : List Char), l.length ≤ f₁ → l.length ≤ f₂ →
      subSpTabFuel f₁ l = subSpTabFuel f₂ l := by
  induction f₁ with
  | zero =>
      intro f₂ l h₁ _
      rw [List.length_eq_zero.mp (Nat.le_zero.mp h₁)]
      simp [subSpTabFuel_nil]
  | succ f ih =>
      intro f₂ l h₁ h₂
      cases l with
      | nil => simp [subSpTabFuel_nil]
      | cons c rest =>
          cases f₂ with
          | zero => simp at h₂
          | succ g =>
              simp only [List.length_cons, Nat.succ_le_succ_iff] at h₁ h₂
              simp only [subSpTabFuel]
              cases hw : isSpTab c
              · simpa using ih g rest h₁ h₂
              · simpa using ih g (rest.dropWhile isSpTab)
                  (Nat.le_trans (List.dropWhile_sublist _).length_le h₁)
                  (Nat.le_trans (List.dropWhile_sublist _).length_le h₂)

theorem subSpTab_cons (c : Char) (rest : List Char) :
    subSpTab (c :: rest) =
      if isSpTab c then ' ' :: subSpTab (rest.dropWhile isSpTab)
      else c :: subSpTab rest := by
  show subSpTabFuel (rest.length + 1) (c :: rest) = _
  simp only [subSpTabFuel]
  cases hw : isSpTab c
  · simp [hw, subSpTab]
  · simp only [hw, if_pos rfl, subSpTab]
    exact congrArg (' ' :: ·)
      (subSpTabFuel_congr rest.length _ _ (List.dropWhile_sublist _).length_le le_rfl)

theorem dropWhile_dropWhile_self (p : Char → Bool) (l : List Char) :
    (l.dropWhile p).dropWhile p = l.dropWhile p := by
  induction l with
  | nil => rfl
  | cons c rest ih =>
      by_cases h : p c
      · rw [List.dropWhile_cons_of_pos h, ih]
      · rw [List.dropWhile_cons_of_neg h, List.dropWhile_cons_of_neg h]

theorem dropWhile_dropWhile_of_imp {p q : Char → Bool}
    (hpq : ∀ c, p c = true → q c = true) (l : List Char) :
    (l.dropWhile p).dropWhile q = l.dropWhile q := by
  induction l with
  | nil => rfl
  | cons c rest ih =>
      by_cases h : p c
      · rw [List.dropWhile_cons_of_pos h, ih, List.dropWhile_cons_of_pos (hpq c h)]
      · rw [List.dropWhile_cons_of_neg h]

theorem replCRLF_cons_ne (c : Char) (rest : List Char) (hc : ¬ c = '\r') :
    replCRLF (c :: rest) = c :: replCRLF rest := by
  rw [replCRLF.eq_def]
  simp [hc]

theorem replCRLF_cr_cons_ne (d : Char) (rest' : List Char) (hd : ¬ d = '\n') :
    replCRLF ('\r' :: d :: rest') = '\n' :: replCRLF (d :: rest') := by
  rw [replCRLF.eq_def]
  simp [hd]

theorem replCRLF_crlf (rest' : List Char) :
    replCRLF ('\r' :: '\n' :: rest') = '\n' :: replCRLF rest' := by
  rw [replCRLF.eq_def]
  rfl

theorem replCRLF_dropWhile (l : List Char) :
    (replCRLF l).dropWhile isPySpace = replCRLF (l.dropWhile isPySpace) := by
  cases l with
  | nil => rfl
  | cons c rest =>
      by_cases hc : c = '\r'
      · subst hc
        cases rest with
        | nil => decide
        | cons d rest' =>
            by_cases hd : d = '\n'
            · subst hd
              rw [replCRLF_crlf,
                  List.dropWhile_cons_of_pos (show isPySpace '\n' from by decide),
                  List.dropWhile_cons_of_pos (show isPySpace '\r' from by decide),
                  List.dropWhile_cons_of_pos (show isPySpace '\n' from by decide),
                  replCRLF_dropWhile rest']
            · rw [replCRLF_cr_cons_ne d rest' hd,
                  List.dropWhile_cons_of_pos (show isPySpace '\n' from by decide),
                  List.dropWhile_cons_of_pos (show isPySpace '\r' from by decide),
                  replCRLF_dropWhile (d :: rest')]
      · rw [replCRLF_cons_ne c rest hc]
        by_cases hw : isPySpace c
        · rw [List.dropWhile_cons_of_pos hw, List.dropWhile_cons_of_pos hw,
              replCRLF_dropWhile rest]
        · rw [List.dropWhile_cons_of_neg hw, List.dropWhile_cons_of_neg hw,
              replCRLF_cons_ne c rest hc]
termination_by l.length
decreasing_by all_goals simp +arith

theorem subNL_dropWhile (l : List Char) :
    (subNL l).dropWhile isPySpace = subNL (l.dropWhile isPySpace) := by
  cases l with
  | nil => rfl
  | cons c rest =>
      rw [subNL_cons]
      by_cases hc : c = '\n'
      · rw [if_pos hc]
        rw [List.dropWhile_cons_of_pos (show isPySpace ' ' from by decide),
            subNL_dropWhile (rest.dropWhile isPySpace), dropWhile_dropWhile_self]
        subst hc
        rw [List.dropWhile_cons_of_pos (show isPySpace '\n' from by decide)]
      · rw [if_neg hc]
        by_cases hw : isPySpace c
        · rw [List.dropWhile_cons_of_pos hw, List.dropWhile_cons_of_pos hw,
              subNL_dropWhile rest]
        · rw [List.dropWhile_cons_of_neg hw, List.dropWhile_cons_of_neg hw,
              subNL_cons, if_neg hc]
termination_by l.length
decreasing_by all_goals
  simp only [List.length_cons]
  first
  | exact Nat.lt_succ_of_le (List.dropWhile_sublist _).length_le
  | exact Nat.lt_succ_of_le le_rfl

theorem isSpTab_isPySpace : ∀ c, isSpTab c = true → isPySpace c = true := by
  intro c h
  simp only [isSpTab, Bool.or_eq_true, decide_eq_true_eq] at h
  rcases h with h | h <;> subst h <;> decide

theorem subSpTab_dropWhile (l : List Char) :
    (subSpTab l).dropWhile isPySpace = subSpTab (l.dropWhile isPySpace) := by
  cases l with
  | nil => rfl
  | cons c rest =>
      rw [subSpTab_cons]
      by_cases hc : isSpTab c
      · rw [if_pos hc]
        rw [List.dropWhile_cons_of_pos (show isPySpace ' ' from by decide),
            subSpTab_dropWhile (rest.dropWhile isSpTab),
            dropWhile_dropWhile_of_imp isSpTab_isPySpace,
            List.dropWhile_cons_of_pos (isSpTab_isPySpace c hc)]
      · rw [if_neg hc]
        by_cases hw : isPySpace c
        · rw [List.dropWhile_cons_of_pos hw, List.dropWhile_cons_of_pos hw,
              subSpTab_dropWhile rest]
        · rw [List.dropWhile_cons_of_neg hw, List.dropWhile_cons_of_neg hw,
              subSpTab_cons, if_neg hc]
termination_by l.length
decreasing_by all_goals
  simp only [List.length_cons]
  first
  | exact Nat.lt_succ_of_le (List.dropWhile_sublist _).length_le
  | exact Nat.lt_succ_of_le le_rfl

theorem collapseWS_replCRLF (l : List Char) : collapseWS (replCRLF l) = collapseWS l := by
  cases l with
  | nil => rfl
  | cons c rest =>
      by_cases hc : c = '\r'
      · subst hc
        cases rest with
        | nil => decide
        | cons d rest' =>
            by_cases hd : d = '\n'
            · subst hd
              rw [replCRLF_crlf, collapseWS_cons, if_pos (show isPySpace '\n' from by decide),
                  replCRLF_dropWhile, collapseWS_replCRLF (rest'.dropWhile isPySpace),
                  collapseWS_cons, if_pos (show isPySpace '\r' from by decide),
                  List.dropWhile_cons_of_pos (show isPySpace '\n' from by decide)]
            · rw [replCRLF_cr_cons_ne d rest' hd, collapseWS_cons,
                  if_pos (show isPySpace '\n' from by decide),
                  replCRLF_dropWhile, collapseWS_replCRLF ((d :: rest').dropWhile isPySpace),
                  collapseWS_cons, if_pos (show isPySpace '\r' from by decide)]
      · rw [replCRLF_cons_ne c rest hc]
        by_cases hw : isPySpace c
        · rw [collapseWS_cons, if_pos hw, replCRLF_dropWhile,
              collapseWS_replCRLF (rest.dropWhile isPySpace),
              collapseWS_cons, if_pos hw]
        · rw [collapseWS_cons, if_neg hw, collapseWS_replCRLF rest,
              collapseWS_cons, if_neg hw]
termination_by l.length
decreasing_by all_goals
  simp only [List.length_cons]
  first
  | exact Nat.lt_succ_of_le (Nat.le_succ_of_le (List.dropWhile_sublist _).length_le)
  | exact Nat.lt_succ_of_le (List.dropWhile_sublist _).length_le
  | exact Nat.lt_succ_of_le le_rfl

theorem collapseWS_subNL (l : List Char) : collapseWS (subNL l) = collapseWS l := by
  cases l with
  | nil => rfl
  | cons c rest =>
      rw [subNL_cons]
      by_cases hc : c = '\n'
      · rw [if_pos hc]
        subst hc
        rw [collapseWS_cons, if_pos (show isPySpace ' ' from by decide),
            subNL_dropWhile, dropWhile_dropWhile_self,
            collapseWS_subNL (rest.dropWhile isPySpace),
            collapseWS_cons, if_pos (show isPySpace '\n' from by decide)]
      · rw [if_neg hc]
        by_cases hw : isPySpace c
        · rw [collapseWS_cons, if_pos hw, subNL_dropWhile,
              collapseWS_subNL (rest.dropWhile isPySpace), collapseWS_cons, if_pos hw]
        · rw [collapseWS_cons, if_neg hw, collapseWS_subNL rest, collapseWS_cons, if_neg hw]
termination_by l.length
decreasing_by all_goals
  simp only [List.length_cons]
  first
  | exact Nat.lt_succ_of_le (List.dropWhile_sublist _).length_le
  | exact Nat.lt_succ_of_le le_rfl

theorem collapseWS_subSpTab (l : List Char) : collapseWS (subSpTab l) = collapseWS l := by
  cases l with
  | nil => rfl
  | cons c rest =>
      rw [subSpTab_cons]
      by_cases hc : isSpTab c
      · rw [if_pos hc]
        rw [collapseWS_cons, if_pos (show isPySpace ' ' from by decide),
            subSpTab_dropWhile, dropWhile_dropWhile_of_imp isSpTab_isPySpace,
            collapseWS_subSpTab (rest.dropWhile isPySpace),
            collapseWS_cons, if_pos (isSpTab_isPySpace c hc)]
      · rw [if_neg hc]
        by_cases hw : isPySpace c
        · rw [collapseWS_cons, if_pos hw, subSpTab_dropWhile,
              collapseWS_subSpTab (rest.dropWhile isPySpace), collapseWS_cons, if_pos hw]
        · rw [collapseWS_cons, if_neg hw, collapseWS_subSpTab rest, collapseWS_cons, if_neg hw]
termination_by l.length
decreasing_by all_goals
  simp only [List.length_cons]
  first
  | exact Nat.lt_succ_of_le (List.dropWhile_sublist _).length_le
  | exact Nat.lt_succ_of_le le_rfl

theorem collapseWS_prefix_append (l post : List Char) :
    collapseWS l <+: collapseWS (l ++ post) := by
  cases l with
  | nil => exact List.nil_prefix
  | cons c rest =>
      by_cases hw : isPySpace c
      · rw [List.cons_append, collapseWS_cons, if_pos hw, collapseWS_cons, if_pos hw,
            List.cons_prefix_cons]
        refine ⟨rfl, ?_⟩
        rw [List.dropWhile_append]
        by_cases he : (rest.dropWhile isPySpace).isEmpty
        · rw [if_pos he]
          rw [show rest.dropWhile isPySpace = [] from by simpa using he]
          exact List.nil_prefix
        · rw [if_neg he]
          exact collapseWS_prefix_append (rest.dropWhile isPySpace) post
      · rw [List.cons_append, collapseWS_cons, if_neg hw, collapseWS_cons, if_neg hw,
            List.cons_prefix_cons]
        exact ⟨rfl, collapseWS_prefix_append rest post⟩
termination_by l.length
decreasing_by all_goals
  simp only [List.length_cons]
  first
  | exact Nat.lt_succ_of_le (List.dropWhile_sublist _).length_le
  | exact Nat.lt_succ_of_le le_rfl

theorem collapseWS_suffix_append (pre l : List Char) :
    collapseWS l <:+ collapseWS (pre ++ l) := by
  cases pre with
  | nil => rw [List.nil_append]
  | cons c pre' =>
      by_cases hw : isPySpace c
      · rw [List.cons_append, collapseWS_cons, if_pos hw, List.dropWhile_append]
        by_cases he : (pre'.dropWhile isPySpace).isEmpty
        · rw [if_pos he]
          cases l with
          | nil => exact List.nil_suffix
          | cons d m =>
              by_cases hd : isPySpace d
              · rw [collapseWS_cons, if_pos hd, List.dropWhile_cons_of_pos hd]
              · rw [List.dropWhile_cons_of_neg hd]
                exact List.suffix_cons ' ' _
        · rw [if_neg he]
          exact (collapseWS_suffix_append (pre'.dropWhile isPySpace) l).trans
            (List.suffix_cons ' ' _)
      · rw [List.cons_append, collapseWS_cons, if_neg hw]
        exact (collapseWS_suffix_append pre' l).trans (List.suffix_cons c _)
termination_by pre.length
decreasing_by all_goals
  simp only [List.length_cons]
  first
  | exact Nat.lt_succ_of_le (List.dropWhile_sublist _).length_le
  | exact Nat.lt_succ_of_le le_rfl

theorem collapseWS_infix_mono {l₁ l₂ : List Char} (h : l₁ <:+: l₂) :
    collapseWS l₁ <:+: collapseWS l₂ := by
  obtain ⟨pre, post, rfl⟩ := h
  rw [List.append_assoc]
  exact (collapseWS_prefix_append l₁ post).isInfix.trans
    (collapseWS_suffix_append pre (l₁ ++ post)).isInfix

theorem stripWS_infix_self (l : List Char) : stripWS l <:+: l := by
  have h1 : stripWS l <+: l.dropWhile isPySpace := by
    have h := List.reverse_prefix.mpr
      (List.dropWhile_suffix (l := (l.dropWhile isPySpace).reverse) isPySpace)
    rwa [List.reverse_reverse] at h
  exact h1.isInfix.trans (List.dropWhile_suffix isPySpace).isInfix

theorem slice_infix_self (l : List Char) (a b : Nat) : (l.drop a).take b <:+: l :=
  (List.take_prefix b (l.drop a)).isInfix.trans (List.drop_suffix a l).isInfix

/-! ## Normalization-idempotence lemmas -/

theorem toNat_ofNat_valid {n : Nat} (h : n < 55296) : (Char.ofNat n).toNat = n := by
  rw [Char.ofNat, dif_pos (Or.inl h)]
  rfl

theorem lowerChar_toNat_of_upper {c : Char} (h : 65 ≤ c.toNat ∧ c.toNat ≤ 90) :
    (lowerChar c).toNat = c.toNat + 32 := by
  unfold lowerChar Char.toLower
  rw [if_pos ⟨h.1, h.2⟩]
  exact toNat_ofNat_valid (by omega)

theorem lowerChar_eq_self_of_not_upper {c : Char} (h : ¬ (65 ≤ c.toNat ∧ c.toNat ≤ 90)) :
    lowerChar c = c := by
  unfold lowerChar Char.toLower
  exact if_neg fun hc => h ⟨hc.1, hc.2⟩

theorem lowerChar_idem (c : Char) : lowerChar (lowerChar c) = lowerChar c := by
  by_cases h : 65 ≤ c.toNat ∧ c.toNat ≤ 90
  · have h2 := lowerChar_toNat_of_upper h
    exact lowerChar_eq_self_of_not_upper (by omega)
  · rw [lowerChar_eq_self_of_not_upper h, lowerChar_eq_self_of_not_upper h]

theorem isPySpace_toNat {c : Char} (h : isPySpace c = true) :
    c.toNat ≤ 64 ∨ 133 ≤ c.toNat := by
  simp only [isPySpace, List.mem_cons, List.not_mem_nil, or_false, decide_eq_true_eq] at h
  rcases h with rfl|rfl|rfl|rfl|rfl|rfl|rfl|rfl|rfl|rfl|rfl|rfl|rfl|rfl|rfl|rfl|rfl|rfl|rfl|
    rfl|rfl|rfl|rfl|rfl|rfl|rfl|rfl|rfl|rfl <;> decide

theorem isPySpace_lowerChar (c : Char) : isPySpace (lowerChar c) = isPySpace c := by
  by_cases h : 65 ≤ c.toNat ∧ c.toNat ≤ 90
  · have h2 := lowerChar_toNat_of_upper h
    have e1 : isPySpace c = false := by
      cases hh : isPySpace c
      · rfl
      · rcases isPySpace_toNat hh with h' | h' <;> omega
    have e2 : isPySpace (lowerChar c) = false := by
      cases hh : isPySpace (lowerChar c)
      · rfl
      · rcases isPySpace_toNat hh with h' | h' <;> omega
    rw [e1, e2]
  · rw [lowerChar_eq_self_of_not_upper h]

theorem lowerL_idem (l : List Char) : lowerL (lowerL l) = lowerL l := by
  induction l with
  | nil => rfl
  | cons c rest ih =>
      simp only [lowerL, List.map_cons] at ih ⊢
      rw [lowerChar_idem]
      exact congrArg _ ih

theorem lowerL_eq_self {l : List Char} (h : ∀ c ∈ l, lowerChar c = c) : lowerL l = l := by
  induction l with
  | nil => rfl
  | cons c rest ih =>
      simp only [lowerL, List.map_cons]
      rw [h c (List.mem_cons_self c rest)]
      exact congrArg _ (ih fun d hd => h d (List.mem_cons_of_mem c hd))

theorem dropWhile_eq_self_of_head {p : Char → Bool} {l : List Char}
    (h : ∀ c, l.head? = some c → p c = false) : l.dropWhile p = l := by
  cases l with
  | nil => rfl
  | cons c rest => exact List.dropWhile_cons_of_neg (by simp [h c rfl])

theorem stripWS_eq_self {l : List Char}
    (hh : ∀ c, l.head? = some c → isPySpace c = false)
    (hl : ∀ c, l.getLast? = some c → isPySpace c = false) : stripWS l = l := by
  unfold stripWS
  rw [dropWhile_eq_self_of_head hh,
      dropWhile_eq_self_of_head (fun c hc => hl c (by rwa [List.head?_reverse] at hc)),
      List.reverse_reverse]

theorem stripWS_getLast {l : List Char} :
    ∀ c, (stripWS l).getLast? = some c → isPySpace c = false := by
  intro c hc
  unfold stripWS at hc
  rw [List.getLast?_reverse] at hc
  have := List.head?_dropWhile_not isPySpace ((l.dropWhile isPySpace).reverse)
  rw [hc] at this
  exact this

theorem stripWS_head {l : List Char} :
    ∀ c, (stripWS l).head? = some c → isPySpace c = false := by
  intro c hc
  unfold stripWS at hc
  rw [List.head?_reverse] at hc
  obtain ⟨s, hs⟩ := List.dropWhile_suffix (l := (l.dropWhile isPySpace).reverse) isPySpace
  have hlast : ((l.dropWhile isPySpace).reverse).getLast? = some c := by
    rw [← hs, List.getLast?_append, hc]
    rfl
  rw [List.getLast?_reverse] at hlast
  have := List.head?_dropWhile_not isPySpace l
  rw [hlast] at this
  exact this

theorem stripWS_idem (l : List Char) : stripWS (stripWS l) = stripWS l :=
  stripWS_eq_self stripWS_head stripWS_getLast

theorem stripWS_lowerL (l : List Char) : stripWS (lowerL l) = lowerL (stripWS l) := by
  have hfun : (isPySpace ∘ lowerChar) = isPySpace := funext isPySpace_lowerChar
  unfold stripWS lowerL
  rw [List.dropWhile_map, hfun, ← List.map_reverse, List.dropWhile_map, hfun,
      ← List.map_reverse]

theorem normStr_some_proj {v : Cell} {s : List Char} (h : normStr v = some s) :
    normStr (some s) = some s := by
  cases v with
  | none => exact absurd h (by simp [normStr])
  | some raw =>
      have h' : (if lowerL (stripWS raw) = [] then (none : Option (List Char))
          else some (lowerL (stripWS raw))) = some s := h
      by_cases he : lowerL (stripWS raw) = []
      · rw [if_pos he] at h'
        exact absurd h' (by simp)
      · rw [if_neg he] at h'
        obtain rfl : lowerL (stripWS raw) = s := by simpa using h'
        have key : lowerL (stripWS (lowerL (stripWS raw))) = lowerL (stripWS raw) := by
          rw [stripWS_lowerL, stripWS_idem, lowerL_idem]
        show (if lowerL (stripWS (lowerL (stripWS raw))) = [] then (none : Option (List Char))
          else some (lowerL (stripWS (lowerL (stripWS raw))))) = _
        rw [key, if_neg he]

theorem containsSub_mem {p : Char} {pat t : List Char}
    (h : containsSub (p :: pat) t = true) : p ∈ t := by
  induction t with
  | nil => simp [containsSub, startsWithL] at h
  | cons c rest ih =>
      unfold containsSub at h
      by_cases hsw : startsWithL (p :: pat) (c :: rest) = true
      · have : (p = c : Bool) = true := by
          have := hsw
          unfold startsWithL at this
          exact (Bool.and_eq_true _ _ |>.mp this).1
        rw [decide_eq_true_eq] at this
        subst this
        exact List.mem_cons_self p rest
      · rw [if_neg hsw] at h
        exact List.mem_cons_of_mem c (ih h)

theorem take_append_of_le {α : Type} {k : Nat} {l₁ l₂ : List α} (h : k ≤ l₁.length) :
    (l₁ ++ l₂).take k = l₁.take k := by
  induction l₁ generalizing k with
  | nil =>
      simp only [List.length_nil, Nat.le_zero] at h
      simp [h]
  | cons a l ih =>
      cases k with
      | zero => simp
      | succ k =>
          simp only [List.cons_append, List.take_succ_cons]
          rw [ih (by simpa using h)]

theorem parseCode_shape {main suf : Char → Bool} {rest g : List Char}
    (h : parseCode main suf rest = some g) :
    ∃ r t, g = r ++ t ∧ 1 ≤ r.length ∧ r.length ≤ 3 ∧ (∀ c ∈ r, main c = true) ∧
      (t = [] ∨ ∃ c, suf c = true ∧ t = [c]) := by
  simp only [parseCode] at h
  set run := rest.takeWhile main with hrun
  set k := min 3 run.length with hk
  have hklen : k ≤ run.length := by omega
  have hrest : k ≤ rest.length := by
    have h1 : run.length ≤ rest.length := (List.takeWhile_prefix main).length_le
    omega
  have hmem : ∀ c ∈ rest.take k, main c = true := by
    obtain ⟨rem, hrem⟩ := List.takeWhile_prefix (l := rest) main
    intro c hc
    rw [← hrem, take_append_of_le hklen] at hc
    exact List.mem_takeWhile_imp (List.take_subset _ _ hc)
  have hlen : (rest.take k).length = k := by
    rw [List.length_take]
    omega
  by_cases hk0 : k = 0
  · rw [if_pos hk0] at h
    exact absurd h (by simp)
  rw [if_neg hk0] at h
  cases hdrop : rest.drop k with
  | nil =>
      rw [hdrop] at h
      obtain rfl : rest.take k = g := by simpa using h
      exact ⟨rest.take k, [], by simp, by omega, by omega, hmem, Or.inl rfl⟩
  | cons c rest' =>
      rw [hdrop] at h
      simp only [] at h
      by_cases hmc : main c
      · rw [if_pos hmc] at h
        exact absurd h (by simp)
      rw [if_neg hmc] at h
      by_cases hsc : suf c
      · rw [if_pos hsc] at h
        cases rest' with
        | nil =>
            obtain rfl : rest.take k ++ [c] = g := by simpa using h
            exact ⟨rest.take k, [c], rfl, by omega, by omega, hmem, Or.inr ⟨c, hsc, rfl⟩⟩
        | cons d rest'' =>
            have h' : (if isWordChar d = true then (none : Option (List Char))
                else some (rest.take k ++ [c])) = some g := h
            by_cases hwd : isWordChar d
            · rw [if_pos hwd] at h'
              exact absurd h' (by simp)
            · rw [if_neg hwd] at h'
              obtain rfl : rest.take k ++ [c] = g := by simpa using h'
              exact ⟨rest.take k, [c], rfl, by omega, by omega, hmem, Or.inr ⟨c, hsc, rfl⟩⟩
      · rw [if_neg hsc] at h
        by_cases hwc : isWordChar c
        · rw [if_pos hwc] at h
          exact absurd h (by simp)
        · rw [if_neg hwc] at h
          obtain rfl : rest.take k = g := by simpa using h
          exact ⟨rest.take k, [], by simp, by omega, by omega, hmem, Or.inl rfl⟩

theorem parseCode_self {main suf : Char → Bool} (hdisj : ∀ c, suf c = true → main c = false)
    {r t : List Char} (hr1 : 1 ≤ r.length) (hr3 : r.length ≤ 3)
    (hmain : ∀ c ∈ r, main c = true)
    (ht : t = [] ∨ ∃ c, suf c = true ∧ t = [c]) :
    parseCode main suf (r ++ t) = some (r ++ t) := by
  have hrun : (r ++ t).takeWhile main = r := by
    rw [List.takeWhile_append_of_pos hmain]
    rcases ht with rfl | ⟨c, hc, rfl⟩
    · simp
    · rw [List.takeWhile_cons_of_neg (by simp [hdisj c hc]), List.append_nil]
  simp only [parseCode]
  rw [hrun, Nat.min_eq_right hr3, if_neg (by omega), List.take_left, List.drop_left]
  rcases ht with rfl | ⟨c, hc, rfl⟩
  · simp
  · simp only []
    rw [if_neg (by simp [hdisj c hc]), if_pos hc]

theorem searchCodeToken_parse {main suf : Char → Bool} {t : List Char} :
    ∀ {prev : Option Char} {i j : Nat} {g : List Char},
    searchCodeToken main suf prev i t = some (j, g) →
    ∃ rest, parseCode main suf rest = some g := by
  induction t with
  | nil => intro prev i j g h; simp [searchCodeToken] at h
  | cons c rest ih =>
      intro prev i j g h
      unfold searchCodeToken at h
      cases hp : (if boundaryPrev prev then parseCode main suf (c :: rest) else none) with
      | some g' =>
          have h2 : (some (i, g') : Option (Nat × List Char)) = some (j, g) := by
            rw [hp] at h
            exact h
          obtain ⟨rfl, rfl⟩ : i = j ∧ g' = g := by simpa using h2
          by_cases hb : boundaryPrev prev = true
          · rw [if_pos hb] at hp
            exact ⟨c :: rest, hp⟩
          · rw [if_neg hb] at hp
            exact absurd hp (by simp)
      | none =>
          have h2 : searchCodeToken main suf (some c) (i + 1) rest = some (j, g) := by
            rw [hp] at h
            exact h
          exact ih h2

theorem stageKwAttempt_parse {prev : Option Char} {t g : List Char}
    (h : stageKwAttempt prev t = some g) :
    ∃ rest, parseCode isIvxLower isAbLower rest = some g := by
  unfold stageKwAttempt at h
  by_cases hb : (boundaryPrev prev && startsWithL "stage".data t) = true
  · rw [if_pos hb] at h
    by_cases hw : ((t.drop 5).takeWhile isPySpace).length = 0
    · rw [if_pos hw] at h
      exact absurd h (by simp)
    · rw [if_neg hw] at h
      exact ⟨(t.drop 5).dropWhile isPySpace, h⟩
  · rw [if_neg hb] at h
    exact absurd h (by simp)

theorem stageKwSearch_parse {t : List Char} :
    ∀ {prev : Option Char} {g : List Char},
    stageKwSearch prev t = some g →
    ∃ rest, parseCode isIvxLower isAbLower rest = some g := by
  induction t with
  | nil => intro prev g h; simp [stageKwSearch] at h
  | cons c rest ih =>
      intro prev g h
      have h0 : (match stageKwAttempt prev (c :: rest) with
          | some g => some g
          | none => stageKwSearch (some c) rest) = some g := h
      cases hp : stageKwAttempt prev (c :: rest) with
      | some g' =>
          have h2 : (some g' : Option (List Char)) = some g := by
            rw [hp] at h0
            exact h0
          obtain rfl : g' = g := by simpa using h2
          exact stageKwAttempt_parse hp
      | none =>
          have h2 : stageKwSearch (some c) rest = some g := by
            rw [hp] at h0
            exact h0
          exact ih h2

theorem stageKwAttempt_none_of_head {prev : Option Char} {c : Char} {rest : List Char}
    (h : ¬ c = 's') : stageKwAttempt prev (c :: rest) = none := by
  unfold stageKwAttempt
  have hsw : startsWithL "stage".data (c :: rest) = false := by
    show (('s' = c : Bool) && startsWithL "tage".data rest) = false
    have : ('s' = c : Bool) = false := by
      simp only [decide_eq_false_iff_not]
      exact fun he => h he.symm
    rw [this, Bool.false_and]
  rw [hsw, Bool.and_false, if_neg (by simp)]

theorem stageKwSearch_none_of_chars {t : List Char}
    (hch : ∀ c ∈ t, c = 'i' ∨ c = 'v' ∨ c = 'x' ∨ c = 'a' ∨ c = 'b') :
    ∀ prev, stageKwSearch prev t = none := by
  induction t with
  | nil => intro prev; rfl
  | cons c rest ih =>
      intro prev
      have hcne : ¬ c = 's' := by
        rcases hch c (List.mem_cons_self c rest) with rfl|rfl|rfl|rfl|rfl <;> decide
      show (match stageKwAttempt prev (c :: rest) with
          | some g => some g
          | none => stageKwSearch (some c) rest) = none
      rw [stageKwAttempt_none_of_head hcne]
      exact ih (fun d hd => hch d (List.mem_cons_of_mem c hd)) (some c)

theorem searchCodeToken_self {main suf : Char → Bool}
    (hdisj : ∀ c, suf c = true → main c = false)
    {r t : List Char} (hr1 : 1 ≤ r.length) (hr3 : r.length ≤ 3)
    (hmain : ∀ c ∈ r, main c = true)
    (ht : t = [] ∨ ∃ c, suf c = true ∧ t = [c]) :
    searchCodeToken main suf none 0 (r ++ t) = some (0, r ++ t) := by
  have hp := parseCode_self hdisj hr1 hr3 hmain ht
  cases r with
  | nil => simp at hr1
  | cons c r' =>
      rw [List.cons_append] at hp ⊢
      show (match (if boundaryPrev none then parseCode main suf (c :: (r' ++ t)) else none) with
            | some g => some ((0 : Nat), g)
            | none => searchCodeToken main suf (some c) (0 + 1) (r' ++ t)) =
          some (0, c :: (r' ++ t))
      rw [if_pos (show boundaryPrev none = true from rfl), hp]

theorem ab_not_ivx : ∀ c, isAbLower c = true → isIvxLower c = false := by
  intro c hc
  simp only [isAbLower, Bool.or_eq_true, decide_eq_true_eq] at hc
  rcases hc with rfl | rfl <;> decide

theorem shape_chars {r t : List Char}
    (hmain : ∀ c ∈ r, isIvxLower c = true)
    (ht : t = [] ∨ ∃ c, isAbLower c = true ∧ t = [c]) :
    ∀ c ∈ r ++ t, c = 'i' ∨ c = 'v' ∨ c = 'x' ∨ c = 'a' ∨ c = 'b' := by
  intro c hc
  rcases List.mem_append.mp hc with hc | hc
  · have := hmain c hc
    simp only [isIvxLower, Bool.or_eq_true, decide_eq_true_eq] at this
    tauto
  · rcases ht with rfl | ⟨d, hd, rfl⟩
    · simp at hc
    · obtain rfl : c = d := by simpa using hc
      simp only [isAbLower, Bool.or_eq_true, decide_eq_true_eq] at hd
      tauto

theorem normalizeStage_fixed {g : List Char}
    (hchars : ∀ c ∈ g, c = 'i' ∨ c = 'v' ∨ c = 'x' ∨ c = 'a' ∨ c = 'b')
    (hself : searchCodeToken isIvxLower isAbLower none 0 g = some (0, g))
    (hne : g ≠ []) :
    normalizeStage (some g) = some g := by
  have hnw : ∀ c ∈ g, isPySpace c = false := fun c hc => by
    rcases hchars c hc with rfl|rfl|rfl|rfl|rfl <;> decide
  have hlower : ∀ c ∈ g, lowerChar c = c := fun c hc => by
    rcases hchars c hc with rfl|rfl|rfl|rfl|rfl <;> decide
  have hstrip : stripWS g = g := stripWS_eq_self
    (fun c hc => hnw c (by
      obtain ⟨ys, rfl⟩ := List.head?_eq_some_iff.mp hc
      exact List.mem_cons_self _ _))
    (fun c hc => hnw c (List.mem_of_getLast?_eq_some hc))
  have hns : normStr (some g) = some g := by
    show (if lowerL (stripWS g) = [] then (none : Option (List Char))
        else some (lowerL (stripWS g))) = some g
    rw [hstrip, lowerL_eq_self hlower, if_neg hne]
  have hsk : stageKwSearch none g = none := stageKwSearch_none_of_chars hchars none
  have hcompact : compactOf g = g := by
    unfold compactOf
    rw [List.filter_eq_self.mpr, lowerL_eq_self hlower]
    intro a ha
    rcases hchars a ha with rfl|rfl|rfl|rfl|rfl <;> decide
  have hc1 : containsSub "pt3n0m0".data (compactOf g) = false := by
    rw [hcompact]
    cases hcc : containsSub "pt3n0m0".data g
    · rfl
    · exfalso
      have hpm : 'p' ∈ g := containsSub_mem hcc
      rcases hchars 'p' hpm with h|h|h|h|h <;> exact absurd h (by decide)
  have hc2 : containsSub "t3n0m0".data (compactOf g) = false := by
    rw [hcompact]
    cases hcc : containsSub "t3n0m0".data g
    · rfl
    · exfalso
      have hpm : 't' ∈ g := containsSub_mem hcc
      rcases hchars 't' hpm with h|h|h|h|h <;> exact absurd h (by decide)
  simp only [normalizeStage, hns, hsk, hc1, hc2, hself, Bool.or_self, Bool.false_eq_true,
    if_false]

theorem normalizeStage_idem (v : Cell) :
    normalizeStage (normalizeStage v) = normalizeStage v := by
  cases v with
  | none => rfl
  | some raw =>
      cases hns : normStr (some raw) with
      | none =>
          have hval : normalizeStage (some raw) = none := by
            simp [normalizeStage, hns]
          rw [hval]
          rfl
      | some s =>
          have hproj := normStr_some_proj hns
          cases hsk : stageKwSearch none s with
          | some g =>
              have hval : normalizeStage (some raw) = some g := by
                simp [normalizeStage, hns, hsk]
              rw [hval]
              obtain ⟨rest, hpc⟩ := stageKwSearch_parse hsk
              obtain ⟨r, t, rfl, h1, h3, hmain, ht⟩ := parseCode_shape hpc
              exact normalizeStage_fixed (shape_chars hmain ht)
                (searchCodeToken_self ab_not_ivx h1 h3 hmain ht)
                (by
                  intro he
                  rcases List.append_eq_nil.mp he with ⟨rfl, -⟩
                  simp at h1)
          | none =>
              by_cases hcc : (containsSub "pt3n0m0".data (compactOf s)
                  || containsSub "t3n0m0".data (compactOf s)) = true
              · have hval : normalizeStage (some raw) = some "ii".data := by
                  simp [normalizeStage, hns, hsk, hcc]
                rw [hval]
                decide
              · have hcc' : (containsSub "pt3n0m0".data (compactOf s)
                    || containsSub "t3n0m0".data (compactOf s)) = false := by
                  simpa using hcc
                cases hsc : searchCodeToken isIvxLower isAbLower none 0 s with
                | some ig =>
                    obtain ⟨i, g⟩ := ig
                    have hval : normalizeStage (some raw) = some g := by
                      simp [normalizeStage, hns, hsk, hcc', hsc]
                    rw [hval]
                    obtain ⟨rest, hpc⟩ := searchCodeToken_parse hsc
                    obtain ⟨r, t, rfl, h1, h3, hmain, ht⟩ := parseCode_shape hpc
                    exact normalizeStage_fixed (shape_chars hmain ht)
                      (searchCodeToken_self ab_not_ivx h1 h3 hmain ht)
                      (by
                        intro he
                        rcases List.append_eq_nil.mp he with ⟨rfl, -⟩
                        simp at h1)
                | none =>
                    have hval : normalizeStage (some raw) = some s := by
                      simp [normalizeStage, hns, hsk, hcc', hsc]
                    rw [hval]
                    simp [normalizeStage, hproj, hsk, hcc', hsc]

theorem normStr_idem (v : Cell) : normStr (normStr v) = normStr v := by
  cases hns : normStr v with
  | none => rfl
  | some s => exact normStr_some_proj hns

theorem normalizeBiomarker_idem (v : Cell) :
    normalizeBiomarker (some (normalizeBiomarker v)) = normalizeBiomarker v := by
  cases hns : normStr v with
  | none =>
      have hval : normalizeBiomarker v = "unknown".data := by
        simp [normalizeBiomarker, hns]
      rw [hval]
      decide
  | some s =>
      by_cases hp : containsSub "pos".data s = true
      · have hval : normalizeBiomarker v = "positive".data := by
          simp [normalizeBiomarker, hns, hp]
        rw [hval]
        decide
      · by_cases hn : containsSub "neg".data s = true
        · have hval : normalizeBiomarker v = "negative".data := by
            simp [normalizeBiomarker, hns, hp, hn]
          rw [hval]
          decide
        · by_cases hu : s = "unknown".data ∨ s = "unk".data
          · have hval : normalizeBiomarker v = "unknown".data := by
              rcases hu with rfl | rfl <;> simp [normalizeBiomarker, hns] <;> decide
            rw [hval]
            decide
          · push_neg at hu
            have hval : normalizeBiomarker v = s := by
              simp [normalizeBiomarker, hns, hp, hn, hu.1, hu.2]
            rw [hval]
            simp [normalizeBiomarker, normStr_some_proj hns, hp, hn, hu.1, hu.2]

theorem normalizePrimarySite_idem (v : Cell) :
    normalizePrimarySite (normalizePrimarySite v) = normalizePrimarySite v := by
  cases hns : normStr v with
  | none =>
      have hval : normalizePrimarySite v = none := by simp [normalizePrimarySite, hns]
      rw [hval]
      rfl
  | some s =>
      by_cases h1 : containsSub "breast".data s = true
      · have hval : normalizePrimarySite v = some "breast".data := by
          simp [normalizePrimarySite, hns, h1]
        rw [hval]
        decide
      · by_cases h2 : (containsSub "lung".data s || containsSub "lobe".data s) = true
        · have hval : normalizePrimarySite v = some "lung".data := by
            simp only [normalizePrimarySite, hns, if_neg h1]
            rw [if_pos h2]
          rw [hval]
          decide
        · by_cases h3 : (containsSub "colon".data s || containsSub "sigmoid".data s) = true
          · have hval : normalizePrimarySite v = some "colon".data := by
              simp only [normalizePrimarySite, hns, if_neg h1]
              rw [if_neg h2, if_pos h3]
            rw [hval]
            decide
          · have hval : normalizePrimarySite v = some s := by
              simp only [normalizePrimarySite, hns, if_neg h1]
              rw [if_neg h2, if_neg h3]
            rw [hval]
            simp only [normalizePrimarySite, normStr_some_proj hns, if_neg h1]
            rw [if_neg h2, if_neg h3]

theorem normalizeHistology_idem (v : Cell) :
    normalizeHistology (normalizeHistology v) = normalizeHistology v := by
  cases hns : normStr v with
  | none =>
      have hval : normalizeHistology v = none := by simp [normalizeHistology, hns]
      rw [hval]
      rfl
  | some s =>
      by_cases h1 : containsSub "adenocarcinoma".data s = true
      · have hval : normalizeHistology v = some "adenocarcinoma".data := by
          simp [normalizeHistology, hns, h1]
        rw [hval]
        decide
      · by_cases h2 : (containsSub "ductal carcinoma".data s
            || containsSub "invasive ductal carcinoma".data s) = true
        · have hval : normalizeHistology v = some "invasive ductal carcinoma".data := by
            simp only [normalizeHistology, hns, if_neg h1]
            rw [if_pos h2]
          rw [hval]
          decide
        · have hval : normalizeHistology v = some s := by
            simp only [normalizeHistology, hns, if_neg h1]
            rw [if_neg h2]
          rw [hval]
          simp only [normalizeHistology, normStr_some_proj hns, if_neg h1]
          rw [if_neg h2]

/-! ## Rounding and metrics lemmas -/

theorem roundHalfEven_nonneg {q : ℚ} (h : 0 ≤ q) : 0 ≤ roundHalfEven q := by
  have hf : (0 : ℤ) ≤ ⌊q⌋ := Int.floor_nonneg.mpr h
  unfold roundHalfEven
  split_ifs <;> omega

theorem roundHalfEven_le {q : ℚ} {n : ℤ} (h : q ≤ n) : roundHalfEven q ≤ n := by
  have hf : ⌊q⌋ ≤ n := by
    have := Int.floor_le_floor h
    simpa using this
  have hfl : (⌊q⌋ : ℚ) ≤ q := Int.floor_le q
  unfold roundHalfEven
  split_ifs with h1 h2 h3
  · exact hf
  · have hq : (⌊q⌋ : ℚ) + 1 / 2 < q := by linarith
    have : (⌊q⌋ : ℚ) < (n : ℚ) := by linarith
    have : ⌊q⌋ < n := by exact_mod_cast this
    omega
  · exact hf
  · have hq : q = (⌊q⌋ : ℚ) + 1 / 2 := by linarith
    have : (⌊q⌋ : ℚ) < (n : ℚ) := by
      rw [hq] at h
      linarith
    have : ⌊q⌋ < n := by exact_mod_cast this
    omega

theorem round3_nonneg {q : ℚ} (h : 0 ≤ q) : 0 ≤ round3 q := by
  unfold round3
  have := roundHalfEven_nonneg (by linarith : (0 : ℚ) ≤ q * 1000)
  positivity

theorem round3_le_one {q : ℚ} (h : q ≤ 1) : round3 q ≤ 1 := by
  unfold round3
  have h1 : roundHalfEven (q * 1000) ≤ (1000 : ℤ) :=
    roundHalfEven_le (by push_cast; linarith)
  rw [div_le_one (by norm_num)]
  exact_mod_cast h1

theorem round3_zero : round3 0 = 0 := by
  norm_num [round3, roundHalfEven]

theorem round3_one : round3 1 = 1 := by
  norm_num [round3, roundHalfEven]

theorem round3_eq_zero_of_le {q : ℚ} (h0 : 0 ≤ q) (h1 : q ≤ 1 / 2000) : round3 q = 0 := by
  have hx0 : (0 : ℚ) ≤ q * 1000 := by linarith
  have hx1 : q * 1000 ≤ 1 / 2 := by linarith
  have hfl : ⌊q * 1000⌋ = 0 := by
    rw [Int.floor_eq_zero_iff]
    constructor
    · exact hx0
    · norm_num
      linarith
  unfold round3 roundHalfEven
  rw [hfl]
  split_ifs with h2 h3 h4
  · norm_num
  · exfalso
    norm_num at h3
    linarith
  · norm_num
  · exact absurd (by decide) h4

theorem round3_le_of_eq_zero {q : ℚ} (h0 : 0 ≤ q) (h : round3 q = 0) : q ≤ 1 / 2000 := by
  by_contra hc
  push_neg at hc
  have hx : 1 / 2 < q * 1000 := by linarith
  have hf0 : (0 : ℤ) ≤ ⌊q * 1000⌋ := Int.floor_nonneg.mpr (by linarith)
  have hrh : roundHalfEven (q * 1000) = 0 := by
    unfold round3 at h
    field_simp at h
    exact_mod_cast h
  have hfl : (⌊q * 1000⌋ : ℚ) ≤ q * 1000 := Int.floor_le _
  have hlt : q * 1000 < (⌊q * 1000⌋ : ℚ) + 1 := Int.lt_floor_add_one _
  unfold roundHalfEven at hrh
  split_ifs at hrh with h1 h2 h3 <;> push_cast at *
  · -- r < 1/2 and floor = 0 forces q*1000 < 1/2, contradiction with hx
    rw [hrh] at hfl hlt h1
    push_cast at h1
    linarith
  · omega
  · rw [hrh] at hfl hlt h1 h2
    push_cast at h1 h2
    linarith
  · omega

theorem stepCounts_total (field : String) (c : Counts) (r : Record) :
    (stepCounts field c r).total = c.total + (if eligiblePair field r = true then 1 else 0) := by
  by_cases hskip : (decide (field = "stage") && !stageSignalPresent (r "note_text")) = true
  · have he : eligiblePair field r = false := by
      unfold eligiblePair
      rw [hskip]
      rfl
    unfold stepCounts
    simp [hskip, he]
  · simp only [Bool.not_eq_true] at hskip
    cases hgt : normalizeForField field (r (field ++ "_gt")) with
    | none =>
        have he : eligiblePair field r = false := by
          unfold eligiblePair
          rw [hskip, hgt]
          rfl
        unfold stepCounts
        simp [hskip, hgt, he]
    | some g =>
        have he : eligiblePair field r = true := by
          unfold eligiblePair
          rw [hskip, hgt]
          rfl
        unfold stepCounts
        by_cases heq : (some g = normalizeForField field (r (field ++ "_pred")))
        · simp [hskip, hgt, ← heq, he]
        · by_cases hpn : normalizeForField field (r (field ++ "_pred")) = none
          · simp [hskip, hgt, heq, hpn, he]
          · simp [hskip, hgt, heq, hpn, he]

theorem stepCounts_correct_tp (field : String) (c : Counts) (r : Record)
    (h : c.correct = c.tp) :
    (stepCounts field c r).correct = (stepCounts field c r).tp := by
  unfold stepCounts
  by_cases hskip : (decide (field = "stage") && !stageSignalPresent (r "note_text")) = true
  · simp [hskip, h]
  · simp only [Bool.not_eq_true] at hskip
    cases hgt : normalizeForField field (r (field ++ "_gt")) with
    | none => simp [hskip, hgt, h]
    | some g =>
        by_cases heq : (some g = normalizeForField field (r (field ++ "_pred")))
        · simp [hskip, hgt, heq, h]
        · by_cases hpn : normalizeForField field (r (field ++ "_pred")) = none
          · simp [hskip, hgt, heq, hpn, h]
          · simp [hskip, hgt, heq, hpn, h]

theorem stepCounts_sum (field : String) (c : Counts) (r : Record)
    (h : c.total = c.tp + c.fp + c.fn) :
    (stepCounts field c r).total =
      (stepCounts field c r).tp + (stepCounts field c r).fp + (stepCounts field c r).fn := by
  unfold stepCounts
  by_cases hskip : (decide (field = "stage") && !stageSignalPresent (r "note_text")) = true
  · simp [hskip, h]
  · simp only [Bool.not_eq_true] at hskip
    cases hgt : normalizeForField field (r (field ++ "_gt")) with
    | none => simp [hskip, hgt, h]
    | some g =>
        by_cases heq : (some g = normalizeForField field (r (field ++ "_pred")))
        · simp [hskip, hgt, heq, h]
          omega
        · by_cases hpn : normalizeForField field (r (field ++ "_pred")) = none
          · simp [hskip, hgt, heq, hpn, h]
            omega
          · simp [hskip, hgt, heq, hpn, h]
            omega

theorem stepCounts_fn_biomarker (field : String)
    (hf : field = "er_status" ∨ field = "pr_status" ∨ field = "her2_status")
    (c : Counts) (r : Record) : (stepCounts field c r).fn = c.fn := by
  have hpred : normalizeForField field (r (field ++ "_pred")) =
      some (normalizeBiomarker (r (field ++ "_pred"))) := by
    unfold normalizeForField
    rcases hf with rfl | rfl | rfl <;> rfl
  unfold stepCounts
  by_cases hskip : (decide (field = "stage") && !stageSignalPresent (r "note_text")) = true
  · simp [hskip]
  · simp only [Bool.not_eq_true] at hskip
    cases hgt : normalizeForField field (r (field ++ "_gt")) with
    | none => simp [hskip, hgt]
    | some g =>
        by_cases heq : (some g = normalizeForField field (r (field ++ "_pred")))
        · simp [hskip, hgt, ← heq]
        · have hpn : ¬ normalizeForField field (r (field ++ "_pred")) = none := by
            rw [hpred]
            simp
          simp [hskip, hgt, heq, hpn]

theorem foldl_counts_total (field : String) (df : List Record) :
    ∀ c : Counts, (df.foldl (stepCounts field) c).total =
      c.total + df.countP (fun r => eligiblePair field r) := by
  induction df with
  | nil => intro c; simp
  | cons r df' ih =>
      intro c
      rw [List.foldl_cons, ih, List.countP_cons, stepCounts_total]
      by_cases h : eligiblePair field r = true
      · simp [h]
        omega
      · simp only [Bool.not_eq_true] at h
        simp [h]

theorem foldl_counts_correct_tp (field : String) (df : List Record) :
    ∀ c : Counts, c.correct = c.tp →
      (df.foldl (stepCounts field) c).correct = (df.foldl (stepCounts field) c).tp := by
  induction df with
  | nil => intro c h; exact h
  | cons r df' ih =>
      intro c h
      rw [List.foldl_cons]
      exact ih _ (stepCounts_correct_tp field c r h)

theorem foldl_counts_sum (field : String) (df : List Record) :
    ∀ c : Counts, c.total = c.tp + c.fp + c.fn →
      (df.foldl (stepCounts field) c).total =
        (df.foldl (stepCounts field) c).tp + (df.foldl (stepCounts field) c).fp +
          (df.foldl (stepCounts field) c).fn := by
  induction df with
  | nil => intro c h; exact h
  | cons r df' ih =>
      intro c h
      rw [List.foldl_cons]
      exact ih _ (stepCounts_sum field c r h)

theorem foldl_counts_fn_biomarker (field : String)
    (hf : field = "er_status" ∨ field = "pr_status" ∨ field = "her2_status")
    (df : List Record) :
    ∀ c : Counts, (df.foldl (stepCounts field) c).fn = c.fn := by
  induction df with
  | nil => intro c; rfl
  | cons r df' ih =>
      intro c
      rw [List.foldl_cons, ih, stepCounts_fn_biomarker field hf]

theorem fieldCounts_total (df : List Record) (field : String) :
    (fieldCounts df field).total = df.countP (fun r => eligiblePair field r) := by
  unfold fieldCounts
  rw [foldl_counts_total]
  simp

theorem fieldCounts_correct_tp (df : List Record) (field : String) :
    (fieldCounts df field).correct = (fieldCounts df field).tp :=
  foldl_counts_correct_tp field df _ rfl

theorem fieldCounts_sum (df : List Record) (field : String) :
    (fieldCounts df field).total =
      (fieldCounts df field).tp + (fieldCounts df field).fp + (fieldCounts df field).fn :=
  foldl_counts_sum field df _ rfl

theorem errorCell_isSome_iff (r : Record) (field : String) :
    (errorCell r field).isSome = true ↔
      (eligiblePair field r = true ∧
        normalizeForField field (r (field ++ "_gt")) ≠
          normalizeForField field (r (field ++ "_pred"))) := by
  by_cases hskip : (decide (field = "stage") && !stageSignalPresent (r "note_text")) = true
  · have he : eligiblePair field r = false := by
      unfold eligiblePair
      rw [hskip]
      rfl
    unfold errorCell
    simp [hskip, he]
  · simp only [Bool.not_eq_true] at hskip
    cases hgt : normalizeForField field (r (field ++ "_gt")) with
    | none =>
        have he : eligiblePair field r = false := by
          unfold eligiblePair
          rw [hskip, hgt]
          rfl
        unfold errorCell
        simp [hskip, hgt, he]
    | some g =>
        have he : eligiblePair field r = true := by
          unfold eligiblePair
          rw [hskip, hgt]
          rfl
        unfold errorCell
        by_cases heq : (some g = normalizeForField field (r (field ++ "_pred")))
        · simp [hskip, hgt, ← heq, he]
        · simp [hskip, hgt, heq, he]

/-! ## Extractor lemmas -/

theorem foldl_max_mem (cs : List Entity) :
    ∀ c : Entity, cs.foldl (fun acc e =>
      if (acc.confidence.getD 0) < (e.confidence.getD 0) then e else acc) c ∈ c :: cs := by
  induction cs with
  | nil => intro c; exact List.mem_cons_self c []
  | cons e cs' ih =>
      intro c
      rw [List.foldl_cons]
      rcases List.mem_cons.mp (ih (if (c.confidence.getD 0) < (e.confidence.getD 0)
          then e else c)) with h | h
      · rw [h]
        split_ifs
        · exact List.mem_cons_of_mem c (List.mem_cons_self e cs')
        · exact List.mem_cons_self c (e :: cs')
      · exact List.mem_cons_of_mem c (List.mem_cons_of_mem e h)

theorem pickBest_spec {entities : List Entity} {cond : Entity → Bool} {b : Entity}
    (h : pickBest entities cond = some b) : b ∈ entities ∧ cond b = true := by
  unfold pickBest at h
  cases hf : entities.filter cond with
  | nil =>
      rw [hf] at h
      exact absurd h (by simp)
  | cons c cs =>
      rw [hf] at h
      obtain rfl : _ = b := by simpa using h
      have hmem := foldl_max_mem cs c
      rw [← hf] at hmem
      exact ⟨List.mem_of_mem_filter hmem, List.of_mem_filter hmem⟩

theorem containsSub_nil {k : Char} {kw : List Char} : containsSub (k :: kw) [] = false := rfl

theorem hasSiteKeyword_text {e : Entity} (h : hasSiteKeyword e = true) : e.text.isSome := by
  unfold hasSiteKeyword at h
  cases hl : e.label with
  | none => rw [hl] at h; exact absurd h (by simp)
  | some l =>
      rw [hl] at h
      have h2 : (if (l = "Cancer".data || l = "Organ".data) = true then
          siteKeywords.any (fun kw => containsSub kw (lowerL (e.text.getD [])))
        else false) = true := h
      by_cases hc : (l = "Cancer".data || l = "Organ".data) = true
      · rw [if_pos hc] at h2
        cases he : e.text with
        | none =>
            rw [he] at h2
            simp only [List.any_eq_true] at h2
            obtain ⟨kw, hkw, hcon⟩ := h2
            fin_cases hkw <;> simp [containsSub_nil, lowerL] at hcon
        | some tx => rfl
      · rw [if_neg hc] at h2
        exact absurd h2 (by simp)

theorem isHistology_text {e : Entity} (h : isHistology e = true) : e.text.isSome := by
  unfold isHistology at h
  cases hl : e.label with
  | none => rw [hl] at h; exact absurd h (by simp)
  | some l =>
      rw [hl] at h
      have h2 : (if l = "Cancer".data then
          histologyTerms.any (fun term => containsSub term (lowerL (e.text.getD [])))
        else false) = true := h
      by_cases hc : l = "Cancer".data
      · rw [if_pos hc] at h2
        cases he : e.text with
        | none =>
            rw [he] at h2
            simp only [List.any_eq_true] at h2
            obtain ⟨term, hterm, hcon⟩ := h2
            fin_cases hterm <;> simp [containsSub_nil, lowerL] at hcon
        | some tx => rfl
      · rw [if_neg hc] at h2
        exact absurd h2 (by simp)

theorem isStageEntity_text {e : Entity} (h : isStageEntity e = true) : e.text.isSome := by
  unfold isStageEntity at h
  cases hl : e.label with
  | none => rw [hl] at h; exact absurd h (by simp)
  | some l =>
      rw [hl] at h
      have h2 : (if l = "Cancer".data then
          startsWithL "stage".data (lowerL (stripWS (e.text.getD [])))
        else false) = true := h
      by_cases hc : l = "Cancer".data
      · rw [if_pos hc] at h2
        cases he : e.text with
        | none =>
            rw [he] at h2
            simp [stripWS, lowerL, startsWithL] at h2
        | some tx => rfl
      · rw [if_neg hc] at h2
        exact absurd h2 (by simp)

theorem entityPrediction_ok {best : Entity} {p : FieldPrediction}
    (h : entityPrediction best = .ok p) :
    p.value.isSome = true ∧ p.evidence_start.isSome = true ∧
      p.evidence_end.isSome = true := by
  unfold entityPrediction at h
  cases htx : best.text with
  | none => rw [htx] at h; exact absurd h (by simp)
  | some t =>
      cases hst : best.start with
      | none => rw [htx, hst] at h; exact absurd h (by simp)
      | some s =>
          cases hsp : best.stop with
          | none => rw [htx, hst, hsp] at h; exact absurd h (by simp)
          | some e =>
              rw [htx, hst, hsp] at h
              have h2 : (Except.ok (⟨some t, some s, some e⟩ : FieldPrediction) :
                  Except (List Char) FieldPrediction) = .ok p := h
              obtain rfl := (Except.ok.inj h2).symm
              exact ⟨rfl, rfl, rfl⟩

theorem entityPrediction_isOk {best : Entity} (htx : best.text.isSome = true)
    (hst : best.start.isSome = true) (hsp : best.stop.isSome = true) :
    (entityPrediction best).isOk = true := by
  unfold entityPrediction
  cases hx : best.text with
  | none => rw [hx] at htx; exact absurd htx (by simp)
  | some t =>
      cases hs : best.start with
      | none => rw [hs] at hst; exact absurd hst (by simp)
      | some s =>
          cases hp : best.stop with
          | none => rw [hp] at hsp; exact absurd hsp (by simp)
          | some e => rfl

theorem findMarkerStatus_offsets (noteText : List Char)
    (matchAt : Option Char → List Char → Option Nat) :
    (findMarkerStatus noteText matchAt).evidence_start.isSome =
      (findMarkerStatus noteText matchAt).evidence_end.isSome := by
  unfold findMarkerStatus
  cases scanWith matchAt none 0 noteText with
  | none => rfl
  | some se => rcases se with ⟨s, e⟩; rfl

theorem inferPrimarySite_ok_shape {noteText : List Char} {entities : List Entity}
    {p : FieldPrediction} (h : inferPrimarySite noteText entities = .ok p) :
    (p.value = none → p.evidence_start = none ∧ p.evidence_end = none) ∧
      p.evidence_start.isSome = p.evidence_end.isSome := by
  unfold inferPrimarySite at h
  cases hpb : pickBest entities hasSiteKeyword with
  | some best =>
      rw [hpb] at h
      obtain ⟨hv, hs, he⟩ := entityPrediction_ok h
      refine ⟨fun hvn => ?_, ?_⟩
      · rw [hvn] at hv; exact absurd hv (by simp)
      · rw [hs, he]
  | none =>
      rw [hpb] at h
      cases hkw : findFirstKw siteKeywords (lowerL noteText) with
      | some kwidx =>
          rcases kwidx with ⟨kw, idx⟩
          rw [hkw] at h
          have h2 : (Except.ok (⟨some kw, some idx, some (idx + kw.length)⟩ :
              FieldPrediction) : Except (List Char) FieldPrediction) = .ok p := h
          obtain rfl := (Except.ok.inj h2).symm
          exact ⟨fun hvn => absurd hvn (by simp), rfl⟩
      | none =>
          rw [hkw] at h
          have h2 : (Except.ok (⟨none, none, none⟩ : FieldPrediction) :
              Except (List Char) FieldPrediction) = .ok p := h
          obtain rfl := (Except.ok.inj h2).symm
          exact ⟨fun _ => ⟨rfl, rfl⟩, rfl⟩

theorem inferHistology_ok_shape {noteText : List Char} {entities : List Entity}
    {p : FieldPrediction} (h : inferHistology noteText entities = .ok p) :
    (p.value = none → p.evidence_start = none ∧ p.evidence_end = none) ∧
      p.evidence_start.isSome = p.evidence_end.isSome := by
  unfold inferHistology at h
  cases hpb : pickBest entities isHistology with
  | some best =>
      rw [hpb] at h
      obtain ⟨hv, hs, he⟩ := entityPrediction_ok h
      refine ⟨fun hvn => ?_, ?_⟩
      · rw [hvn] at hv; exact absurd hv (by simp)
      · rw [hs, he]
  | none =>
      rw [hpb] at h
      cases hhs : histSearch none 0 noteText with
      | some se =>
          rcases se with ⟨s, e⟩
          rw [hhs] at h
          have h2 : (Except.ok (⟨some ((noteText.drop s).take (e - s)), some s, some e⟩ :
              FieldPrediction) : Except (List Char) FieldPrediction) = .ok p := h
          obtain rfl := (Except.ok.inj h2).symm
          exact ⟨fun hvn => absurd hvn (by simp), rfl⟩
      | none =>
          rw [hhs] at h
          have h2 : (Except.ok (⟨none, none, none⟩ : FieldPrediction) :
              Except (List Char) FieldPrediction) = .ok p := h
          obtain rfl := (Except.ok.inj h2).symm
          exact ⟨fun _ => ⟨rfl, rfl⟩, rfl⟩

theorem inferStage_ok_shape {noteText : List Char} {entities : List Entity}
    {p : FieldPrediction} (h : inferStage noteText entities = .ok p) :
    (p.value = none → p.evidence_start = none ∧ p.evidence_end = none) ∧
      p.evidence_start.isSome = p.evidence_end.isSome := by
  unfold inferStage at h
  cases hpb : pickBest entities isStageEntity with
  | some best =>
      rw [hpb] at h
      obtain ⟨hv, hs, he⟩ := entityPrediction_ok h
      refine ⟨fun hvn => ?_, ?_⟩
      · rw [hvn] at hv; exact absurd hv (by simp)
      · rw [hs, he]
  | none =>
      rw [hpb] at h
      cases htn : tnmSearch none 0 noteText with
      | some se =>
          rcases se with ⟨s, e⟩
          rw [htn] at h
          have h2 : (Except.ok (⟨some ((noteText.drop s).take (e - s)), some s, some e⟩ :
              FieldPrediction) : Except (List Char) FieldPrediction) = .ok p := h
          obtain rfl := (Except.ok.inj h2).symm
          exact ⟨fun hvn => absurd hvn (by simp), rfl⟩
      | none =>
          rw [htn] at h
          cases hct : searchCodeToken isIvxUpper isAbUpper none 0 noteText with
          | some sg =>
              rcases sg with ⟨s, g⟩
              rw [hct] at h
              have h2 : (Except.ok (⟨some g, some s, some (s + g.length)⟩ :
                  FieldPrediction) : Except (List Char) FieldPrediction) = .ok p := h
              obtain rfl := (Except.ok.inj h2).symm
              exact ⟨fun hvn => absurd hvn (by simp), rfl⟩
          | none =>
              rw [hct] at h
              have h2 : (Except.ok (⟨none, none, none⟩ : FieldPrediction) :
                  Except (List Char) FieldPrediction) = .ok p := h
              obtain rfl := (Except.ok.inj h2).symm
              exact ⟨fun _ => ⟨rfl, rfl⟩, rfl⟩

/-! ## Claim theorems -/

set_option maxRecDepth 8000

/-- C1: the stage scorability gate.  The claim states that
`is_scorable("stage", note_text)` is true when the note contains a TNM
pattern, in particular for `"pT3N0M0 noted"`.  The code lowercases the note
first and then applies `\bp?[Tt]\d+[Nn]\d+M\d+\b`, whose `M` is
case-sensitive — so the TNM branch can never fire and the gate answers
`false` on `"pT3N0M0 noted"` (while the `"stage"` substring branch still
answers `true` on `"Stage IIA breast cancer"`). -/
theorem stage_gate_tnm_dead_branch :
    stageSignalPresent (some "pT3N0M0 noted".data) = false ∧
    stageSignalPresent (some "Stage IIA breast cancer".data) = true ∧
    (tnmSearch none 0 (lowerL "pT3N0M0 noted".data)).isSome = false := by
  refine ⟨by decide, by decide, by decide⟩

/-- C2 (amended): evidence traceability holds for every snippet the
truncation branch leaves alone.  If both offsets are present and in range,
the core snippet is non-empty and fits inside `max_len`, then
`evidence_span` returns it unchanged and, after collapsing whitespace runs
to single spaces on both sides, it is a literal substring of the note. -/
theorem evidence_span_traceable_of_untruncated
    (noteText : List Char) (p : FieldPrediction) (es ee maxLen : Nat) (s : List Char)
    (hes : p.evidence_start = some es) (hee : p.evidence_end = some ee)
    (hle : es ≤ ee) (hlen : ee ≤ noteText.length)
    (hcore : evidenceSpanCore p noteText = some s)
    (hne : s ≠ []) (hfit : s.length ≤ maxLen) :
    evidenceSpan p noteText maxLen = some s ∧ collapseWS s <:+: collapseWS noteText := by
  constructor
  · unfold evidenceSpan
    rw [hcore, Option.map_some']
    rw [if_neg (by omega : ¬ maxLen < s.length)]
  · obtain ⟨st, en, hs⟩ : ∃ st en,
        s = stripWS (subSpTab (subNL (replCRLF ((noteText.drop st).take en)))) := by
      unfold evidenceSpanCore at hcore
      rw [hes, hee] at hcore
      exact ⟨_, _, (Option.some_inj.mp hcore).symm⟩
    have t1 : collapseWS s <:+:
        collapseWS (subSpTab (subNL (replCRLF ((noteText.drop st).take en)))) := by
      rw [hs]
      exact collapseWS_infix_mono (stripWS_infix_self _)
    rw [collapseWS_subSpTab, collapseWS_subNL, collapseWS_replCRLF] at t1
    exact t1.trans (collapseWS_infix_mono (slice_infix_self noteText st en))

/-- C2 witness: a concrete in-range prediction on `"Hello world"`, whose
snippet is the whole note; the amended theorem applies and yields both the
`evidence_span` value and the collapsed-substring property. -/
theorem evidence_span_traceable_witness :
    evidenceSpan ⟨some "x".data, some 0, some 5⟩ "Hello world".data 160 =
      some "Hello world".data ∧
    collapseWS "Hello world".data <:+: collapseWS "Hello world".data :=
  evidence_span_traceable_of_untruncated "Hello world".data
    ⟨some "x".data, some 0, some 5⟩ 0 5 160 "Hello world".data
    rfl rfl (by decide) (by decide) (by decide) (by decide) (by decide)

/-- C2 counterexample: the claim as stated is false once the snippet is
truncated.  A 170-character alphanumeric note with the full note as the
evidence span (offsets in range) produces the snippet
`'a' * 157 ++ "..."`, which is non-empty but — the appended ellipsis not
being note text — is not a substring of the whitespace-collapsed note. -/
theorem evidence_span_truncation_counterexample :
    evidenceSpan ⟨some "x".data, some 0, some 170⟩ (List.replicate 170 'a') =
      some (List.replicate 157 'a' ++ "...".data) ∧
    (0 : Nat) ≤ 170 ∧ 170 ≤ (List.replicate 170 'a').length ∧
    (List.replicate 157 'a' ++ "...".data) ≠ [] ∧
    ¬ collapseWS (List.replicate 157 'a' ++ "...".data) <:+:
        collapseWS (List.replicate 170 'a') := by
  refine ⟨by decide, by decide, by decide, by decide, by decide⟩

/-- C7: the Metrics Engine and the Error Reporter apply the identical
eligibility condition.  `compute_metrics`' support for a field counts exactly
the records satisfying the spec's eligibility predicate (stage-scorable and
non-null normalized ground truth), and `generate_error_report` emits a row
for a (record, field) pair exactly when that same predicate holds and the
normalized values differ — so a pair is counted in support iff the reporter
considers it, and listed iff additionally mismatching. -/
theorem metrics_error_report_eligibility_equiv (df : List Record) (field : String)
    (r : Record) (fields : List String) :
    (metricsRow df field).support = df.countP (fun x => eligiblePair field x) ∧
    ((errorCell r field).isSome = true ↔
      (eligiblePair field r = true ∧
        normalizeForField field (r (field ++ "_gt")) ≠
          normalizeForField field (r (field ++ "_pred")))) ∧
    generateErrorReport df fields = df.flatMap fun x => fields.filterMap (errorCell x) := by
  exact ⟨fieldCounts_total df field, errorCell_isSome_iff r field, rfl⟩

theorem guardedRate_bounds (a b : Nat) :
    0 ≤ guardedRate a b ∧ guardedRate a b ≤ 1 := by
  unfold guardedRate
  split_ifs with h
  · norm_num
  · have hb : 0 < (a : ℚ) + (b : ℚ) := by
      have h1 : 0 < a + b := Nat.pos_of_ne_zero h
      exact_mod_cast h1
    refine ⟨by positivity, ?_⟩
    rw [div_le_one hb]
    have hbn : (0 : ℚ) ≤ (b : ℚ) := Nat.cast_nonneg b
    linarith

theorem guardedAcc_bounds {a b : Nat} (hab : a ≤ b) :
    0 ≤ guardedAcc a b ∧ guardedAcc a b ≤ 1 := by
  unfold guardedAcc
  split_ifs with h
  · norm_num
  · have hb : 0 < (b : ℚ) := by
      have h1 : 0 < b := Nat.pos_of_ne_zero h
      exact_mod_cast h1
    refine ⟨by positivity, ?_⟩
    rw [div_le_one hb]
    exact_mod_cast hab

theorem guardedF1_bounds {p r : ℚ} (hp0 : 0 ≤ p) (hp1 : p ≤ 1) (hr0 : 0 ≤ r) (hr1 : r ≤ 1) :
    0 ≤ guardedF1 p r ∧ guardedF1 p r ≤ 1 := by
  unfold guardedF1
  split_ifs with h
  · norm_num
  · have hpr : 0 < p + r := lt_of_le_of_ne (by linarith) (Ne.symm h)
    refine ⟨by positivity, ?_⟩
    rw [div_le_one hpr]
    nlinarith

theorem guardedF1_round_zero {p r : ℚ} (hp0 : 0 ≤ p) (hr0 : 0 ≤ r)
    (hpz : round3 p = 0) (hrz : round3 r = 0) : round3 (guardedF1 p r) = 0 := by
  have hple := round3_le_of_eq_zero hp0 hpz
  have hrle := round3_le_of_eq_zero hr0 hrz
  unfold guardedF1
  split_ifs with hz
  · exact round3_zero
  · have hpr : 0 < p + r := lt_of_le_of_ne (by linarith) (Ne.symm hz)
    have hharm : 2 * p * r / (p + r) ≤ (p + r) / 2 := by
      rw [div_le_div_iff hpr (by norm_num)]
      nlinarith [sq_nonneg (p - r)]
    exact round3_eq_zero_of_le (by positivity) (by linarith)

/-- C9: every accuracy, precision, recall and F1 value `compute_metrics`
reports lies in `[0, 1]`; precision and recall are 0 when their denominators
(TP+FP, TP+FN) are 0, F1 is 0 when precision + recall is 0, and zero support
yields accuracy 0 rather than an error. -/
theorem metrics_bounds (df : List Record) (field : String) :
    (0 ≤ (metricsRow df field).accuracy ∧ (metricsRow df field).accuracy ≤ 1) ∧
    (0 ≤ (metricsRow df field).precision ∧ (metricsRow df field).precision ≤ 1) ∧
    (0 ≤ (metricsRow df field).recall_ ∧ (metricsRow df field).recall_ ≤ 1) ∧
    (0 ≤ (metricsRow df field).f1 ∧ (metricsRow df field).f1 ≤ 1) ∧
    ((fieldCounts df field).tp + (fieldCounts df field).fp = 0 →
      (metricsRow df field).precision = 0) ∧
    ((fieldCounts df field).tp + (fieldCounts df field).fn = 0 →
      (metricsRow df field).recall_ = 0) ∧
    ((metricsRow df field).precision + (metricsRow df field).recall_ = 0 →
      (metricsRow df field).f1 = 0) ∧
    ((metricsRow df field).support = 0 → (metricsRow df field).accuracy = 0) := by
  have hct := fieldCounts_correct_tp df field
  have hsum := fieldCounts_sum df field
  have hacc : (metricsRow df field).accuracy =
      round3 (guardedAcc (fieldCounts df field).correct (fieldCounts df field).total) := rfl
  have hprec : (metricsRow df field).precision =
      round3 (guardedRate (fieldCounts df field).tp (fieldCounts df field).fp) := rfl
  have hrec : (metricsRow df field).recall_ =
      round3 (guardedRate (fieldCounts df field).tp (fieldCounts df field).fn) := rfl
  have hf1 : (metricsRow df field).f1 =
      round3 (guardedF1 (guardedRate (fieldCounts df field).tp (fieldCounts df field).fp)
        (guardedRate (fieldCounts df field).tp (fieldCounts df field).fn)) := rfl
  have hsupp : (metricsRow df field).support = (fieldCounts df field).total := rfl
  have hpb := guardedRate_bounds (fieldCounts df field).tp (fieldCounts df field).fp
  have hrb := guardedRate_bounds (fieldCounts df field).tp (fieldCounts df field).fn
  have haccb := guardedAcc_bounds
    (a := (fieldCounts df field).correct) (b := (fieldCounts df field).total) (by omega)
  have hfb := guardedF1_bounds hpb.1 hpb.2 hrb.1 hrb.2
  refine ⟨⟨?_, ?_⟩, ⟨?_, ?_⟩, ⟨?_, ?_⟩, ⟨?_, ?_⟩, ?_, ?_, ?_, ?_⟩
  · rw [hacc]; exact round3_nonneg haccb.1
  · rw [hacc]; exact round3_le_one haccb.2
  · rw [hprec]; exact round3_nonneg hpb.1
  · rw [hprec]; exact round3_le_one hpb.2
  · rw [hrec]; exact round3_nonneg hrb.1
  · rw [hrec]; exact round3_le_one hrb.2
  · rw [hf1]; exact round3_nonneg hfb.1
  · rw [hf1]; exact round3_le_one hfb.2
  · intro h0
    rw [hprec]
    unfold guardedRate
    rw [if_pos h0]
    exact round3_zero
  · intro h0
    rw [hrec]
    unfold guardedRate
    rw [if_pos h0]
    exact round3_zero
  · intro h0
    rw [hprec, hrec] at h0
    have hpz : round3 (guardedRate (fieldCounts df field).tp (fieldCounts df field).fp) = 0 := by
      have n1 := round3_nonneg hpb.1
      have n2 := round3_nonneg hrb.1
      linarith
    have hrz : round3 (guardedRate (fieldCounts df field).tp (fieldCounts df field).fn) = 0 := by
      have n1 := round3_nonneg hpb.1
      have n2 := round3_nonneg hrb.1
      linarith
    rw [hf1]
    exact guardedF1_round_zero hpb.1 hrb.1 hpz hrz
  · intro h0
    rw [hsupp] at h0
    rw [hacc]
    unfold guardedAcc
    rw [if_pos h0]
    exact round3_zero

/-- C9 witness: on the empty record set every denominator is zero, and all
four zero-cases of the bounds theorem discharge concretely. -/
theorem metrics_bounds_witness :
    (metricsRow [] "stage").precision = 0 ∧ (metricsRow [] "stage").recall_ = 0 ∧
    (metricsRow [] "stage").f1 = 0 ∧ (metricsRow [] "stage").accuracy = 0 := by
  have h := metrics_bounds [] "stage"
  have hp := h.2.2.2.2.1 (by decide)
  have hr := h.2.2.2.2.2.1 (by decide)
  have hf := h.2.2.2.2.2.2.1 (by rw [hp, hr]; norm_num)
  have hs := h.2.2.2.2.2.2.2 (by decide)
  exact ⟨hp, hr, hf, hs⟩

/-- C10: on the biomarker fields `normalize_for_field` always returns a
(non-null) string, so `compute_metrics` can never count a false negative
there, and the reported recall is 1 whenever TP is positive and 0 otherwise
(`round(1.0, 3) = 1.0`, `round(0.0, 3) = 0.0`). -/
theorem biomarker_recall_degenerate (field : String)
    (hf : field = "er_status" ∨ field = "pr_status" ∨ field = "her2_status") :
    (∀ v : Cell, (normalizeForField field v).isSome = true) ∧
    ∀ df : List Record, (fieldCounts df field).fn = 0 ∧
      (metricsRow df field).recall_ = (if 0 < (fieldCounts df field).tp then 1 else 0) := by
  constructor
  · intro v
    unfold normalizeForField
    rcases hf with rfl | rfl | rfl <;> rfl
  · intro df
    have hfn : (fieldCounts df field).fn = 0 :=
      foldl_counts_fn_biomarker field hf df ⟨0, 0, 0, 0, 0⟩
    refine ⟨hfn, ?_⟩
    have hrec : (metricsRow df field).recall_ =
        round3 (guardedRate (fieldCounts df field).tp (fieldCounts df field).fn) := rfl
    rw [hrec, hfn]
    by_cases htp : (fieldCounts df field).tp = 0
    · rw [htp]
      simp [guardedRate, round3_zero]
    · have htp' : 0 < (fieldCounts df field).tp := Nat.pos_of_ne_zero htp
      rw [if_pos htp']
      unfold guardedRate
      rw [if_neg (by omega)]
      have hcast : ((fieldCounts df field).tp : ℚ) + ((0 : Nat) : ℚ) =
          ((fieldCounts df field).tp : ℚ) := by
        push_cast
        ring
      rw [hcast, div_self (Nat.cast_ne_zero.mpr htp)]
      exact round3_one

/-- C10 witness: the `er_status` field on a null cell and the empty record
set — the normalizer yields a string, the false-negative count is 0, and
recall is 0 because TP is 0. -/
theorem biomarker_recall_degenerate_witness :
    (normalizeForField "er_status" none).isSome = true ∧
    (fieldCounts [] "er_status").fn = 0 ∧ (metricsRow [] "er_status").recall_ = 0 := by
  have h := biomarker_recall_degenerate "er_status" (Or.inl rfl)
  refine ⟨h.1 none, (h.2 []).1, ?_⟩
  have h2 := (h.2 []).2
  simpa using h2

/-- C8: `normalize_for_field` is idempotent — for every field name (the four
dispatched fields, the biomarker trio, and the `_norm_str` fallback) and
every cell value, normalizing a normalized value returns it unchanged. -/
theorem normalize_for_field_idempotent (field : String) (v : Cell) :
    normalizeForField field (normalizeForField field v) = normalizeForField field v := by
  unfold normalizeForField
  by_cases h1 : (field = "er_status" || field = "pr_status" || field = "her2_status") = true
  · rw [if_pos h1, if_pos h1]
    exact congrArg some (normalizeBiomarker_idem v)
  · rw [if_neg h1, if_neg h1]
    by_cases h2 : field = "stage"
    · rw [if_pos h2, if_pos h2]
      exact normalizeStage_idem v
    · rw [if_neg h2, if_neg h2]
      by_cases h3 : field = "primary_site"
      · rw [if_pos h3, if_pos h3]
        exact normalizePrimarySite_idem v
      · rw [if_neg h3, if_neg h3]
        by_cases h4 : field = "histology"
        · rw [if_pos h4, if_pos h4]
          exact normalizeHistology_idem v
        · rw [if_neg h4, if_neg h4]
          exact normStr_idem v

/-- C3: the three literal stage-extraction scenarios, evaluated on
`infer_stage` as it stands in `field_mapping.py`.  The first and third agree
with the claim (`"IIA"` via the bare roman-numeral fallback; `"pT3N0M0"` via
the TNM pattern), but `"DIAGNOSIS: stage: ii a."` yields the empty
prediction — the shipped extractor has no case-insensitive `stage:`-prefix
strategy, although the repository's own test
`test_stage_normalization_colon_format` (and `scripts/patch_stage_infer.py`)
require `"IIA"`. -/
theorem infer_stage_literal_scenarios :
    inferStage "Assessment: Stage IIA breast cancer.".data [] =
      .ok ⟨some "IIA".data, some 18, some 21⟩ ∧
    inferStage "DIAGNOSIS: stage: ii a.".data [] = .ok ⟨none, none, none⟩ ∧
    inferStage "Path: pT3N0M0 noted in the report.".data [] =
      .ok ⟨some "pT3N0M0".data, some 6, some 13⟩ ∧
    lowerL "pT3N0M0".data = "pt3n0m0".data := by
  exact ⟨rfl, rfl, rfl, by decide⟩

/-- C4: the last-resort roman-numeral strategy of `infer_stage` in
`field_mapping.py` has no `"stage"`/`"stg"` prefix guard: on the note
`"Section IV"` (which contains no stage keyword, no `stg` token, no TNM
pattern and no stage entity) it extracts the bare numeral `"IV"` instead of
returning the empty prediction the claim (and
`scripts/patch_stage_infer.py`) demands. -/
theorem infer_stage_section_iv_eval :
    inferStage "Section IV".data [] = .ok ⟨some "IV".data, some 8, some 10⟩ ∧
    stageSignalPresent (some "Section IV".data) = false := by
  exact ⟨rfl, by decide⟩

/-- C5 counterexample: `infer_er_status` on a note that mentions the marker
but no polarity word returns `value = None` with both evidence offsets
present — refuting the claim that every extractor prediction with a `None`
value has both offsets `None`. -/
theorem er_status_none_with_span_counterexample :
    inferErStatus "ER result pending".data = ⟨none, some 0, some 2⟩ ∧
    ¬ ((⟨none, some 0, some 2⟩ : FieldPrediction).evidence_start = none ∧
       (⟨none, some 0, some 2⟩ : FieldPrediction).evidence_end = none) := by
  exact ⟨by decide, by decide⟩

/-- C5 amended: every successful prediction of `infer_primary_site`,
`infer_histology` or `infer_stage` with `value = None` has both evidence
offsets `None`; and every prediction any of the six extractors returns has
its two evidence offsets both present or both absent — never a partial
pair.  (The biomarker extractors, per the counterexample, may pair a `None`
value with a present marker span.) -/
theorem empty_evidence_invariant_amended
    (noteText : List Char) (entities : List Entity) (p : FieldPrediction) :
    ((inferPrimarySite noteText entities = .ok p ∨
      inferHistology noteText entities = .ok p ∨
      inferStage noteText entities = .ok p) →
      p.value = none → p.evidence_start = none ∧ p.evidence_end = none) ∧
    ((inferPrimarySite noteText entities = .ok p ∨
      inferHistology noteText entities = .ok p ∨
      inferStage noteText entities = .ok p ∨
      p = inferErStatus noteText ∨ p = inferPrStatus noteText ∨
      p = inferHer2Status noteText) →
      p.evidence_start.isSome = p.evidence_end.isSome) := by
  constructor
  · rintro (h | h | h) hv
    · exact (inferPrimarySite_ok_shape h).1 hv
    · exact (inferHistology_ok_shape h).1 hv
    · exact (inferStage_ok_shape h).1 hv
  · rintro (h | h | h | rfl | rfl | rfl)
    · exact (inferPrimarySite_ok_shape h).2
    · exact (inferHistology_ok_shape h).2
    · exact (inferStage_ok_shape h).2
    · exact findMarkerStatus_offsets noteText erMatchAt
    · exact findMarkerStatus_offsets noteText prMatchAt
    · exact findMarkerStatus_offsets noteText her2MatchAt

/-- C5 witness: the amended invariant applied at a concrete note with no
site keyword and no entities, whose prediction is the empty one. -/
theorem empty_evidence_invariant_witness :
    (⟨none, none, none⟩ : FieldPrediction).evidence_start = none ∧
      (⟨none, none, none⟩ : FieldPrediction).evidence_end = none :=
  (empty_evidence_invariant_amended "q".data [] ⟨none, none, none⟩).1
    (Or.inl rfl) rfl

/-- C6 counterexample: an entity that satisfies the site predicate but lacks
the `start` offset key makes `infer_primary_site` raise `KeyError` instead of
treating the entity as a non-matching candidate. -/
theorem primary_site_missing_offsets_keyerror :
    (inferPrimarySite "x".data
        [⟨some "Organ".data, some "breast".data, none, none, none⟩]).isOk = false := by
  decide

/-- C6 amended: when every entity carries its `start` and `end` offsets
(as all entities emitted by the NER stage do), `infer_primary_site`,
`infer_histology` and `infer_stage` never raise: a matching entity also has
`text` present (forced by the match predicates), so the raw indexing
succeeds, and every fallback branch returns a prediction. -/
theorem extractors_total_on_offset_complete_entities
    (noteText : List Char) (entities : List Entity)
    (hok : ∀ e ∈ entities, e.start.isSome = true ∧ e.stop.isSome = true) :
    (inferPrimarySite noteText entities).isOk = true ∧
    (inferHistology noteText entities).isOk = true ∧
    (inferStage noteText entities).isOk = true := by
  refine ⟨?_, ?_, ?_⟩
  · unfold inferPrimarySite
    cases hpb : pickBest entities hasSiteKeyword with
    | some best =>
        obtain ⟨hmem, hcond⟩ := pickBest_spec hpb
        exact entityPrediction_isOk (hasSiteKeyword_text hcond)
          (hok best hmem).1 (hok best hmem).2
    | none =>
        cases hkw : findFirstKw siteKeywords (lowerL noteText) with
        | some kwidx => rcases kwidx with ⟨kw, idx⟩; rfl
        | none => rfl
  · unfold inferHistology
    cases hpb : pickBest entities isHistology with
    | some best =>
        obtain ⟨hmem, hcond⟩ := pickBest_spec hpb
        exact entityPrediction_isOk (isHistology_text hcond)
          (hok best hmem).1 (hok best hmem).2
    | none =>
        cases hhs : histSearch none 0 noteText with
        | some se => rcases se with ⟨s, e⟩; rfl
        | none => rfl
  · unfold inferStage
    cases hpb : pickBest entities isStageEntity with
    | some best =>
        obtain ⟨hmem, hcond⟩ := pickBest_spec hpb
        exact entityPrediction_isOk (isStageEntity_text hcond)
          (hok best hmem).1 (hok best hmem).2
    | none =>
        cases htn : tnmSearch none 0 noteText with
        | some se => rcases se with ⟨s, e⟩; rfl
        | none =>
            cases hct : searchCodeToken isIvxUpper isAbUpper none 0 noteText with
            | some sg => rcases sg with ⟨s, g⟩; rfl
            | none => rfl

/-- C6 witness: the totality theorem applied to a concrete entity list whose
single entity (a matching `Organ`/`breast` one) carries both offsets. -/
theorem extractors_total_witness :
    (inferPrimarySite "x".data
        [⟨some "Organ".data, some "breast".data, some 1, some 0, some 6⟩]).isOk = true ∧
    (inferHistology "x".data
        [⟨some "Organ".data, some "breast".data, some 1, some 0, some 6⟩]).isOk = true ∧
    (inferStage "x".data
        [⟨some "Organ".data, some "breast".data, some 1, some 0, some 6⟩]).isOk = true :=
  extractors_total_on_offset_complete_entities "x".data
    [⟨some "Organ".data, some "breast".data, some 1, some 0, some 6⟩]
    (by
      intro e he
      rw [List.mem_singleton] at he
      subst he
      exact ⟨rfl, rfl⟩)

end OncReg
